import Mathlib

/-!
# Verification of the watch-tower event-streaming subsystem

A shallow embedding of `src/backend/events/publisher.py`,
`src/backend/events/consumer.py` and `src/backend/events/schemas.py`.

Python scalar values that cross the wire boundary are modelled as follows:
Python floats are modelled as signed decimal fractions (`PyFloat`), which is
adequate up to number formatting (`str`/`float` round-tripping of floats is
replaced by the corresponding decimal-string round trip); `datetime` values as
a seven-component record rendered and re-parsed in ISO-8601 form; JSON values
as an inductive tree whose strings are assumed to need no escaping (the JSON
codec here mirrors `json.dumps`/`json.loads` on the sublanguage without
escape sequences, which is the only part the decoding-table claims exercise).
-/

namespace WatchTower

/-- ASCII decimal digit test, as used by Python's `int`/`float` parsers on the
strings this system produces. -/
def isDig (c : Char) : Bool := '0' ≤ c && c ≤ '9'

/-- Character for one decimal digit. -/
def digChar (d : Nat) : Char := Char.ofNat (48 + d)

/-- Numeric value of one decimal digit character. -/
def digVal (c : Char) : Nat := c.toNat - 48

/-- Little-endian digit characters of `n`, with explicit fuel so that the
kernel can evaluate it (fuel `n` is always enough). -/
def natDigitsAux : Nat → Nat → List Char
  | 0, _ => []
  | _ + 1, 0 => []
  | fuel + 1, n => digChar (n % 10) :: natDigitsAux fuel (n / 10)

/-- Decimal rendering of a natural number, as Python's `str`. -/
def natRender (n : Nat) : List Char :=
  if n = 0 then ['0'] else (natDigitsAux n n).reverse

/-- Value of a big-endian decimal digit string (junk digits are not checked
here; callers validate with `isDig` first). -/
def digitsToNat (cs : List Char) : Nat :=
  cs.foldl (fun a c => a * 10 + digVal c) 0

theorem digVal_digChar {d : Nat} (h : d < 10) : digVal (digChar d) = d := by
  interval_cases d <;> rfl

theorem isDig_digChar {d : Nat} (h : d < 10) : isDig (digChar d) = true := by
  interval_cases d <;> rfl

theorem digitsToNat_foldl (acc : Nat) (cs : List Char) :
    List.foldl (fun a c => a * 10 + digVal c) acc cs =
      acc * 10 ^ cs.length + digitsToNat cs := by
  induction cs generalizing acc with
  | nil => simp [digitsToNat]
  | cons c cs ih =>
    simp only [List.foldl_cons, digitsToNat]
    rw [ih, ih (0 * 10 + digVal c)]
    simp [pow_succ]
    ring

theorem digitsToNat_append (a b : List Char) :
    digitsToNat (a ++ b) = digitsToNat a * 10 ^ b.length + digitsToNat b := by
  simp only [digitsToNat, List.foldl_append]
  rw [digitsToNat_foldl]
  rfl

theorem digitsToNat_singleton (c : Char) : digitsToNat [c] = digVal c := by
  simp [digitsToNat]

theorem digitsToNat_natDigitsAux (fuel n : Nat) (h : n ≤ fuel) :
    digitsToNat (natDigitsAux fuel n).reverse = n := by
  induction fuel generalizing n with
  | zero =>
    interval_cases n
    simp [natDigitsAux, digitsToNat]
  | succ fuel ih =>
    match n with
    | 0 => simp [natDigitsAux, digitsToNat]
    | m + 1 =>
      have hdiv : (m + 1) / 10 ≤ fuel := by
        have : (m + 1) / 10 < m + 1 := Nat.div_lt_self (Nat.succ_pos m) (by omega)
        omega
      simp only [natDigitsAux, List.reverse_cons]
      rw [digitsToNat_append, ih _ hdiv, digitsToNat_singleton,
        digVal_digChar (Nat.mod_lt _ (by omega))]
      simp
      omega

theorem digitsToNat_natRender (n : Nat) : digitsToNat (natRender n) = n := by
  unfold natRender
  by_cases h : n = 0
  · simp [h, digitsToNat, digVal]
  · simp [h]
    exact digitsToNat_natDigitsAux n n (le_refl n)

theorem natDigitsAux_all_isDig (fuel n : Nat) :
    ∀ c ∈ natDigitsAux fuel n, isDig c = true := by
  induction fuel generalizing n with
  | zero => intro c hc; simp [natDigitsAux] at hc
  | succ fuel ih =>
    intro c hc
    match n with
    | 0 => simp [natDigitsAux] at hc
    | m + 1 =>
      simp only [natDigitsAux, List.mem_cons] at hc
      rcases hc with rfl | hc
      · exact isDig_digChar (Nat.mod_lt _ (by omega))
      · exact ih _ c hc

theorem natRender_all_isDig (n : Nat) : ∀ c ∈ natRender n, isDig c = true := by
  intro c hc
  unfold natRender at hc
  by_cases h : n = 0
  · simp [h] at hc; simp [hc]; rfl
  · simp [h] at hc
    exact natDigitsAux_all_isDig n n c hc

theorem natRender_ne_nil (n : Nat) : natRender n ≠ [] := by
  unfold natRender
  by_cases h : n = 0
  · simp [h]
  · simp [h]
    intro hcon
    have := digitsToNat_natDigitsAux n n (le_refl n)
    rw [List.reverse_eq_nil_iff.mpr hcon] at this
    simp [digitsToNat] at this
    omega

theorem digitsToNat_replicate_zero (k : Nat) (cs : List Char) :
    digitsToNat (List.replicate k '0' ++ cs) = digitsToNat cs := by
  induction k with
  | zero => simp
  | succ k ih =>
    simp only [List.replicate_succ, List.cons_append, digitsToNat, List.foldl_cons]
    have h0 : (0 : Nat) * 10 + digVal '0' = 0 := by rfl
    rw [h0]
    exact ih

theorem takeWhile_append_all {p : Char → Bool} {a : List Char} (b : List Char)
    (ha : ∀ c ∈ a, p c = true) :
    (a ++ b).takeWhile p = a ++ b.takeWhile p := by
  induction a with
  | nil => simp
  | cons c a ih =>
    simp only [List.cons_append, List.takeWhile_cons, ha c (by simp)]
    rw [ih (fun c hc => ha c (by simp [hc]))]
    simp

theorem dropWhile_append_all {p : Char → Bool} {a : List Char} (b : List Char)
    (ha : ∀ c ∈ a, p c = true) :
    (a ++ b).dropWhile p = b.dropWhile p := by
  induction a with
  | nil => simp
  | cons c a ih =>
    simp only [List.cons_append, List.dropWhile_cons, ha c (by simp)]
    exact ih (fun c hc => ha c (by simp [hc]))

theorem takeWhile_stop {p : Char → Bool} (b : List Char)
    (hb : match b with | [] => True | c :: _ => p c = false) :
    b.takeWhile p = [] := by
  match b with
  | [] => rfl
  | c :: b => simp only [List.takeWhile_cons]; simp [hb]

theorem dropWhile_stop {p : Char → Bool} (b : List Char)
    (hb : match b with | [] => True | c :: _ => p c = false) :
    b.dropWhile p = b := by
  match b with
  | [] => rfl
  | c :: b => simp only [List.dropWhile_cons]; simp [hb]

/-- Split a character list at the first occurrence of `sep`; `none` when `sep`
does not occur. -/
def splitFirst (sep : Char) : List Char → Option (List Char × List Char)
  | [] => none
  | c :: rest =>
    if c = sep then some ([], rest)
    else match splitFirst sep rest with
      | some (a, b) => some (c :: a, b)
      | none => none

theorem splitFirst_append {sep : Char} {a : List Char} (b : List Char)
    (ha : sep ∉ a) : splitFirst sep (a ++ sep :: b) = some (a, b) := by
  induction a with
  | nil => simp [splitFirst]
  | cons c a ih =>
    have hc : c ≠ sep := by intro h; exact ha (by simp [h])
    simp only [List.cons_append, splitFirst, hc, if_neg hc, List.append_eq,
      ih (fun h => ha (by simp [h]))]
    simp

theorem splitFirst_none {sep : Char} {a : List Char} (ha : sep ∉ a) :
    splitFirst sep a = none := by
  induction a with
  | nil => rfl
  | cons c a ih =>
    have hc : c ≠ sep := by intro h; exact ha (by simp [h])
    simp only [splitFirst, if_neg hc]
    rw [ih (fun h => ha (by simp [h]))]

/-- A Python `float` modelled as a signed decimal fraction
`(-1)^neg * mant / 10^frac10`. The canonical form (no trailing zero in the
fractional digits) is the one `str(float)` prints. -/
structure PyFloat where
  neg : Bool
  mant : Nat
  frac10 : Nat
deriving DecidableEq, Repr

/-- Canonical decimal form: `str(float(x))` re-parses to exactly this
representation. -/
def PyFloat.canonical (f : PyFloat) : Bool := f.frac10 == 0 || f.mant % 10 != 0

/-- Remove trailing zeros from the fractional digits (Python's float value
does not remember them). -/
def stripz : Nat → Nat → Nat × Nat
  | m, 0 => (m, 0)
  | m, f + 1 => if m % 10 = 0 then stripz (m / 10) f else (m, f + 1)

theorem stripz_canonical (m : Nat) (f : Nat) (h : f = 0 ∨ m % 10 ≠ 0) :
    stripz m f = (m, f) := by
  match f with
  | 0 => rfl
  | f + 1 =>
    have hm : m % 10 ≠ 0 := by omega
    simp [stripz, hm]

theorem stripz_mul10 (m : Nat) (f : Nat) (h : f = 0 ∨ m % 10 ≠ 0) :
    stripz (m * 10) (f + 1) = (m, f) := by
  have h10 : m * 10 % 10 = 0 := by omega
  simp only [stripz, h10, if_pos rfl]
  have hdiv : m * 10 / 10 = m := by omega
  rw [hdiv]
  exact stripz_canonical m f h

/-- Digits of a rendered float: the mantissa's digits left-padded with zeros
so that at least one digit sits before the decimal point, then split
`frac10` digits after the point. `str(float)` always prints at least one
fractional digit. -/
def floatDigits (mant frac10 : Nat) : List Char :=
  let ds0 := natRender mant
  let ds := List.replicate (frac10 + 1 - ds0.length) '0' ++ ds0
  ds.take (ds.length - frac10) ++
    '.' :: (if frac10 = 0 then ['0'] else ds.drop (ds.length - frac10))

/-- `str(f)` for a Python float, e.g. `"12.5"`, `"-0.001"`, `"45.0"`. -/
def floatRender (f : PyFloat) : List Char :=
  (if f.neg then ['-'] else []) ++ floatDigits f.mant f.frac10


/-- Leading sign handling shared by Python's `float`/`int` string parsers. -/
def parseSign (cs : List Char) : Bool × List Char :=
  match cs with
  | c :: r => if c = '-' then (true, r) else if c = '+' then (false, r) else (false, cs)
  | [] => (false, cs)

/-- `float(s)` for the decimal-literal fragment Python accepts on this wire
format: optional sign, digits, optional point and fractional digits.
Fails (Python raises `ValueError`) on anything else, e.g. `"None"`. -/
def parseFloat? (cs : List Char) : Option PyFloat :=
  let s := parseSign cs
  match splitFirst '.' s.2 with
  | none =>
    if s.2 ≠ [] ∧ s.2.all isDig then some ⟨s.1, digitsToNat s.2, 0⟩ else none
  | some (ip, fp) =>
    if (ip ++ fp) ≠ [] ∧ ip.all isDig ∧ fp.all isDig then
      let mf := stripz (digitsToNat (ip ++ fp)) fp.length
      some ⟨s.1, mf.1, mf.2⟩
    else none

theorem isDig_not_special {c : Char} (h : isDig c = true) :
    c ≠ '-' ∧ c ≠ '+' ∧ c ≠ '.' := by
  refine ⟨?_, ?_, ?_⟩ <;> intro hc <;> rw [hc] at h <;> exact absurd h (by decide)

theorem parseSign_dash (r : List Char) : parseSign ('-' :: r) = (true, r) := by
  simp [parseSign]

theorem parseSign_digit {c : Char} (r : List Char) (h : isDig c = true) :
    parseSign (c :: r) = (false, c :: r) := by
  obtain ⟨h1, h2, _⟩ := isDig_not_special h
  simp [parseSign, h1, h2]

theorem floatDigits_shape (mant frac10 : Nat) :
    ∃ intDs tailDs, floatDigits mant frac10 = intDs ++ '.' :: tailDs ∧
      intDs ≠ [] ∧ (∀ c ∈ intDs, isDig c = true) ∧ (∀ c ∈ tailDs, isDig c = true) ∧
      digitsToNat (intDs ++ tailDs) =
        (if frac10 = 0 then mant * 10 else mant) ∧
      tailDs.length = (if frac10 = 0 then 1 else frac10) := by
  classical
  set ds0 := natRender mant with hds0
  set ds := List.replicate (frac10 + 1 - ds0.length) '0' ++ ds0 with hds
  have hds_all : ∀ c ∈ ds, isDig c = true := by
    intro c hc
    rw [hds] at hc
    rcases List.mem_append.mp hc with h | h
    · rw [List.eq_of_mem_replicate h]; decide
    · exact natRender_all_isDig mant c h
  have hds0_len : 1 ≤ ds0.length := by
    rcases List.exists_cons_of_ne_nil (natRender_ne_nil mant) with ⟨c, t, hct⟩
    rw [hds0, hct]; simp
  have hds_len : frac10 + 1 ≤ ds.length := by
    rw [hds]; simp [List.length_append, List.length_replicate]; omega
  have hds_val : digitsToNat ds = mant := by
    rw [hds, digitsToNat_replicate_zero, hds0, digitsToNat_natRender]
  refine ⟨ds.take (ds.length - frac10),
    if frac10 = 0 then ['0'] else ds.drop (ds.length - frac10), ?_, ?_, ?_, ?_, ?_, ?_⟩
  · rw [floatDigits]
  · intro hcon
    have := congrArg List.length hcon
    simp [List.length_take] at this
    omega
  · intro c hc
    exact hds_all c (List.mem_of_mem_take hc)
  · intro c hc
    by_cases h0 : frac10 = 0
    · rw [if_pos h0] at hc
      simp at hc
      rw [hc]; decide
    · rw [if_neg h0] at hc
      exact hds_all c (List.mem_of_mem_drop hc)
  · by_cases h0 : frac10 = 0
    · rw [if_pos h0, if_pos h0]
      have htake : ds.take (ds.length - 0) = ds := by simp
      rw [h0, htake, digitsToNat_append, hds_val]
      simp [digitsToNat, digVal]
    · rw [if_neg h0, if_neg h0, List.take_append_drop, hds_val]
  · by_cases h0 : frac10 = 0
    · simp [h0]
    · rw [if_neg h0, if_neg h0, List.length_drop]
      omega

theorem parseFloat_floatRender (f : PyFloat) (hc : f.canonical = true) :
    parseFloat? (floatRender f) = some f := by
  classical
  obtain ⟨intDs, tailDs, hshape, hne, hint, htail, hval, hlen⟩ :=
    floatDigits_shape f.mant f.frac10
  have hcanon : f.frac10 = 0 ∨ f.mant % 10 ≠ 0 := by
    rw [PyFloat.canonical] at hc
    rcases Bool.or_eq_true_iff.mp hc with h | h
    · left; simpa using h
    · right; simpa using h
  rcases List.exists_cons_of_ne_nil hne with ⟨c0, intTl, hcons⟩
  have hc0 : isDig c0 = true := hint c0 (by rw [hcons]; simp)
  have hdot : '.' ∉ intDs := by
    intro hmem
    exact (isDig_not_special (hint '.' hmem)).2.2 rfl
  have hsplit : splitFirst '.' (floatDigits f.mant f.frac10) = some (intDs, tailDs) := by
    rw [hshape]; exact splitFirst_append tailDs hdot
  have hsign : parseSign (floatRender f) = (f.neg, floatDigits f.mant f.frac10) := by
    cases hneg : f.neg with
    | true =>
      have : floatRender f = '-' :: floatDigits f.mant f.frac10 := by
        rw [floatRender, hneg]; simp
      rw [this, parseSign_dash]
    | false =>
      have h1 : floatRender f = c0 :: (intTl ++ '.' :: tailDs) := by
        rw [floatRender, hneg, hshape, hcons]; simp
      rw [h1, parseSign_digit _ hc0, ← List.cons_append, ← hcons, ← hshape]
  have hguard : (intDs ++ tailDs) ≠ [] ∧ intDs.all isDig ∧ tailDs.all isDig := by
    refine ⟨?_, List.all_eq_true.mpr hint, List.all_eq_true.mpr htail⟩
    rw [hcons]; simp
  have hstrip : stripz (digitsToNat (intDs ++ tailDs)) tailDs.length = (f.mant, f.frac10) := by
    rw [hval, hlen]
    by_cases h0 : f.frac10 = 0
    · rw [if_pos h0, if_pos h0, h0]
      exact stripz_mul10 f.mant 0 (Or.inl rfl)
    · rw [if_neg h0, if_neg h0]
      exact stripz_canonical f.mant f.frac10 (Or.inr (by omega))
  rw [parseFloat?]
  simp only [hsign, hsplit, if_pos hguard, hstrip]

/-- Python's `str` on an `int`. -/
def intRender (n : Int) : List Char :=
  if n < 0 then '-' :: natRender n.natAbs else natRender n.toNat

/-- Python's `int(s)`: optional sign followed by decimal digits, anything else
raises `ValueError`. -/
def parseInt? (cs : List Char) : Option Int :=
  let s := parseSign cs
  if s.2 ≠ [] ∧ s.2.all isDig then
    some (if s.1 then -(digitsToNat s.2 : Int) else (digitsToNat s.2 : Int))
  else none

theorem natRender_guard (n : Nat) : natRender n ≠ [] ∧ (natRender n).all isDig := by
  exact ⟨natRender_ne_nil n, List.all_eq_true.mpr (natRender_all_isDig n)⟩

theorem parseSign_natRender (n : Nat) : parseSign (natRender n) = (false, natRender n) := by
  rcases List.exists_cons_of_ne_nil (natRender_ne_nil n) with ⟨c, t, hct⟩
  have hc : isDig c = true := natRender_all_isDig n c (by rw [hct]; simp)
  rw [hct, parseSign_digit _ hc]

theorem parseInt_intRender (n : Int) : parseInt? (intRender n) = some n := by
  by_cases hneg : n < 0
  · rw [intRender, if_pos hneg, parseInt?]
    simp only [parseSign_dash, natRender_guard, if_pos (natRender_guard n.natAbs)]
    rw [digitsToNat_natRender]
    have : ((n.natAbs : Int)) = -n := by omega
    simp [this, natRender_ne_nil n.natAbs,
      List.all_eq_true.mpr (natRender_all_isDig n.natAbs)]
  · rw [intRender, if_neg hneg, parseInt?]
    simp only [parseSign_natRender, if_pos (natRender_guard n.toNat)]
    rw [digitsToNat_natRender]
    simp
    omega

/-- A naive `datetime` value as produced by `datetime.utcnow()` (no time
zone), seven components. -/
structure PyDateTime where
  year : Nat
  month : Nat
  day : Nat
  hour : Nat
  minute : Nat
  second : Nat
  microsecond : Nat
deriving DecidableEq, Repr

/-- Zero-pad a rendered natural to at least `w` characters. -/
def padRender (w n : Nat) : List Char :=
  List.replicate (w - (natRender n).length) '0' ++ natRender n

/-- `datetime.isoformat()`: `YYYY-MM-DDTHH:MM:SS` with a `.ffffff` suffix
exactly when the microsecond component is nonzero. -/
def isoformat (d : PyDateTime) : List Char :=
  padRender 4 d.year ++ '-' :: padRender 2 d.month ++ '-' :: padRender 2 d.day ++
    'T' :: padRender 2 d.hour ++ ':' :: padRender 2 d.minute ++ ':' :: padRender 2 d.second ++
    (if d.microsecond = 0 then [] else '.' :: padRender 6 d.microsecond)

/-- Parse one unsigned decimal component. -/
def parseNatGroup? (cs : List Char) : Option Nat :=
  if cs ≠ [] ∧ cs.all isDig then some (digitsToNat cs) else none

/-- `datetime.fromisoformat(s)` on the naive ISO strings this system writes
(date, `T`, time, optional fractional seconds); fails on everything else. -/
def fromisoformat? (cs : List Char) : Option PyDateTime :=
  match splitFirst 'T' cs with
  | none => none
  | some (date, time) =>
    match splitFirst '-' date with
    | none => none
    | some (ys, mds) =>
      match splitFirst '-' mds with
      | none => none
      | some (ms, ds) =>
        match splitFirst ':' time with
        | none => none
        | some (hs, mss) =>
          match splitFirst ':' mss with
          | none => none
          | some (mins, secus) =>
            let (secs, uss) : List Char × Option (List Char) :=
              match splitFirst '.' secus with
              | some (a, b) => (a, some b)
              | none => (secus, none)
            match parseNatGroup? ys, parseNatGroup? ms, parseNatGroup? ds,
              parseNatGroup? hs, parseNatGroup? mins, parseNatGroup? secs with
            | some y, some mo, some dd, some h, some mi, some se =>
              match uss with
              | none => some ⟨y, mo, dd, h, mi, se, 0⟩
              | some us =>
                match parseNatGroup? us with
                | some u => some ⟨y, mo, dd, h, mi, se, u⟩
                | none => none
            | _, _, _, _, _, _ => none

theorem padRender_all_isDig (w n : Nat) : ∀ c ∈ padRender w n, isDig c = true := by
  intro c hc
  rcases List.mem_append.mp hc with h | h
  · rw [List.eq_of_mem_replicate h]; decide
  · exact natRender_all_isDig n c h

theorem padRender_ne_nil (w n : Nat) : padRender w n ≠ [] := by
  intro hcon
  rcases List.append_eq_nil.mp hcon with ⟨_, h2⟩
  exact natRender_ne_nil n h2

theorem parseNatGroup_padRender (w n : Nat) :
    parseNatGroup? (padRender w n) = some n := by
  rw [parseNatGroup?,
    if_pos ⟨padRender_ne_nil w n, List.all_eq_true.mpr (padRender_all_isDig w n)⟩,
    padRender, digitsToNat_replicate_zero, digitsToNat_natRender]

theorem not_mem_padRender {c : Char} (w n : Nat) (h : isDig c = false) :
    c ∉ padRender w n := by
  intro hmem
  rw [padRender_all_isDig w n c hmem] at h
  exact absurd h (by decide)

theorem fromiso_isoformat (d : PyDateTime) : fromisoformat? (isoformat d) = some d := by
  classical
  set usTail : List Char :=
    if d.microsecond = 0 then [] else '.' :: padRender 6 d.microsecond with hus
  set dateL : List Char :=
    padRender 4 d.year ++ '-' :: (padRender 2 d.month ++ '-' :: padRender 2 d.day) with hdate
  set timeL : List Char :=
    padRender 2 d.hour ++ ':' :: (padRender 2 d.minute ++ ':' :: (padRender 2 d.second ++ usTail))
    with htime
  have hiso : isoformat d = dateL ++ 'T' :: timeL := by
    rw [isoformat, hdate, htime, hus]
    simp [List.append_assoc]
  have hT : 'T' ∉ dateL := by
    rw [hdate]
    intro hmem
    rcases List.mem_append.mp hmem with h | h
    · exact absurd (padRender_all_isDig 4 d.year 'T' h) (by decide)
    · rcases List.mem_cons.mp h with h | h
      · exact absurd h (by decide)
      · rcases List.mem_append.mp h with h | h
        · exact absurd (padRender_all_isDig 2 d.month 'T' h) (by decide)
        · rcases List.mem_cons.mp h with h | h
          · exact absurd h (by decide)
          · exact absurd (padRender_all_isDig 2 d.day 'T' h) (by decide)
  have h1 : splitFirst 'T' (isoformat d) = some (dateL, timeL) := by
    rw [hiso]; exact splitFirst_append timeL hT
  have h2 : splitFirst '-' dateL =
      some (padRender 4 d.year, padRender 2 d.month ++ '-' :: padRender 2 d.day) := by
    rw [hdate]
    exact splitFirst_append _ (not_mem_padRender 4 d.year (by decide))
  have h3 : splitFirst '-' (padRender 2 d.month ++ '-' :: padRender 2 d.day) =
      some (padRender 2 d.month, padRender 2 d.day) := by
    exact splitFirst_append _ (not_mem_padRender 2 d.month (by decide))
  have h4 : splitFirst ':' timeL =
      some (padRender 2 d.hour,
        padRender 2 d.minute ++ ':' :: (padRender 2 d.second ++ usTail)) := by
    rw [htime]
    exact splitFirst_append _ (not_mem_padRender 2 d.hour (by decide))
  have h5 : splitFirst ':' (padRender 2 d.minute ++ ':' :: (padRender 2 d.second ++ usTail)) =
      some (padRender 2 d.minute, padRender 2 d.second ++ usTail) := by
    exact splitFirst_append _ (not_mem_padRender 2 d.minute (by decide))
  rw [fromisoformat?]
  simp only [h1, h2, h3, h4, h5]
  by_cases hu : d.microsecond = 0
  · have husnil : usTail = [] := by rw [hus, if_pos hu]
    have h6 : splitFirst '.' (padRender 2 d.second) = none :=
      splitFirst_none (not_mem_padRender 2 d.second (by decide))
    simp only [husnil, List.append_nil, h6, parseNatGroup_padRender]
    rw [← hu]
  · have husdot : usTail = '.' :: padRender 6 d.microsecond := by rw [hus, if_neg hu]
    have h6 : splitFirst '.' (padRender 2 d.second ++ usTail) =
        some (padRender 2 d.second, padRender 6 d.microsecond) := by
      rw [husdot]
      exact splitFirst_append _ (not_mem_padRender 2 d.second (by decide))
    simp only [h6, parseNatGroup_padRender]

mutual

/-- A JSON value as handled by `json.dumps`/`json.loads`. Numbers keep the
Python split between `int` and `float`. -/
inductive Json where
  | null
  | jb (b : Bool)
  | ji (n : Int)
  | jf (f : PyFloat)
  | js (s : String)
  | jarr (xs : JsonList)
  | jobj (kvs : JsonMembers)

/-- Elements of a JSON array. -/
inductive JsonList where
  | nil
  | cons (hd : Json) (tl : JsonList)

/-- Key/value members of a JSON object, in insertion order. -/
inductive JsonMembers where
  | nil
  | cons (key : String) (val : Json) (tl : JsonMembers)

end

mutual

/-- Node count of a JSON value (drives the parser fuel bounds). -/
def jsize : Json → Nat
  | .null => 1
  | .jb _ => 1
  | .ji _ => 1
  | .jf _ => 1
  | .js _ => 1
  | .jarr xs => jlsize xs + 1
  | .jobj kvs => jmsize kvs + 1

/-- Node count of array elements. -/
def jlsize : JsonList → Nat
  | .nil => 0
  | .cons h t => jsize h + jlsize t + 1

/-- Node count of object members. -/
def jmsize : JsonMembers → Nat
  | .nil => 0
  | .cons _ v t => jsize v + jmsize t + 1

end

mutual

/-- `json.dumps` with its default separators (`", "` and `": "`) on the
escape-free sublanguage. -/
def printJson : Json → List Char
  | .null => ['n', 'u', 'l', 'l']
  | .jb true => ['t', 'r', 'u', 'e']
  | .jb false => ['f', 'a', 'l', 's', 'e']
  | .ji n => intRender n
  | .jf f => floatRender f
  | .js s => '"' :: (s.data ++ ['"'])
  | .jarr xs => '[' :: (printElems xs ++ [']'])
  | .jobj kvs => '\x7b' :: (printMembers kvs ++ ['\x7d'])

/-- Array elements joined by `", "`. -/
def printElems : JsonList → List Char
  | .nil => []
  | .cons h .nil => printJson h
  | .cons h (.cons h2 t) =>
    printJson h ++ ',' :: ' ' :: printElems (.cons h2 t)

/-- Object members `"key": value` joined by `", "`. -/
def printMembers : JsonMembers → List Char
  | .nil => []
  | .cons k v .nil => '"' :: (k.data ++ '"' :: ':' :: ' ' :: printJson v)
  | .cons k v (.cons k2 v2 t) =>
    ('"' :: (k.data ++ '"' :: ':' :: ' ' :: printJson v)) ++
      ',' :: ' ' :: printMembers (.cons k2 v2 t)

end

/-- JSON insignificant whitespace. -/
def isWsChar (c : Char) : Bool := c = ' ' || c = '\t' || c = '\n' || c = '\r'

/-- Drop leading whitespace. -/
def skipWs : List Char → List Char
  | [] => []
  | c :: r => if isWsChar c then skipWs r else c :: r

/-- Does the second list start with the first? -/
def startsWithL : List Char → List Char → Bool
  | [], _ => true
  | _ :: _, [] => false
  | p :: ps, c :: cs => p = c && startsWithL ps cs

/-- Leading `'-'` sign of a JSON number (JSON numbers admit no `'+'`). -/
def parseNegSign (cs : List Char) : Bool × List Char :=
  match cs with
  | c :: r => if c = '-' then (true, r) else (false, cs)
  | [] => (false, cs)

/-- One JSON number token: digits with an optional fractional part; an
integer literal loads as a Python `int`, one with a point as a `float`. -/
def parseJsonNumber (cs : List Char) : Option (Json × List Char) :=
  let s := parseNegSign cs
  let ip := s.2.takeWhile isDig
  let r1 := s.2.dropWhile isDig
  if ip = [] then none
  else if r1.head? = some '.' then
    let fp := r1.tail.takeWhile isDig
    let r3 := r1.tail.dropWhile isDig
    if fp = [] then none
    else
      let mf := stripz (digitsToNat (ip ++ fp)) fp.length
      some (.jf ⟨s.1, mf.1, mf.2⟩, r3)
  else some (.ji (if s.1 then -(digitsToNat ip : Int) else (digitsToNat ip : Int)), r1)

mutual

/-- Recursive-descent `json.loads` core with explicit fuel; on the
escape-free sublanguage this matches Python's parser. -/
def parseJson : Nat → List Char → Option (Json × List Char)
  | 0, _ => none
  | fuel + 1, cs0 =>
    let cs := skipWs cs0
    if startsWithL ['n', 'u', 'l', 'l'] cs then some (.null, cs.drop 4)
    else if startsWithL ['t', 'r', 'u', 'e'] cs then some (.jb true, cs.drop 4)
    else if startsWithL ['f', 'a', 'l', 's', 'e'] cs then some (.jb false, cs.drop 5)
    else if cs.head? = some '"' then
      match splitFirst '"' cs.tail with
      | some (sd, rest) => some (.js (String.mk sd), rest)
      | none => none
    else if cs.head? = some '[' then
      let r := skipWs cs.tail
      if r.head? = some ']' then some (.jarr .nil, r.tail)
      else
        match parseElems fuel r with
        | some (xs, rest) => some (.jarr xs, rest)
        | none => none
    else if cs.head? = some '\x7b' then
      let r := skipWs cs.tail
      if r.head? = some '\x7d' then some (.jobj .nil, r.tail)
      else
        match parseMembers fuel r with
        | some (kvs, rest) => some (.jobj kvs, rest)
        | none => none
    else parseJsonNumber cs

/-- Comma-separated array elements up to the closing bracket. -/
def parseElems : Nat → List Char → Option (JsonList × List Char)
  | 0, _ => none
  | fuel + 1, cs =>
    match parseJson fuel cs with
    | none => none
    | some (v, r) =>
      let r1 := skipWs r
      if r1.head? = some ',' then
        match parseElems fuel r1.tail with
        | some (xs, rest) => some (.cons v xs, rest)
        | none => none
      else if r1.head? = some ']' then some (.cons v .nil, r1.tail)
      else none

/-- Comma-separated object members up to the closing brace. -/
def parseMembers : Nat → List Char → Option (JsonMembers × List Char)
  | 0, _ => none
  | fuel + 1, cs =>
    let cs1 := skipWs cs
    if cs1.head? = some '"' then
      match splitFirst '"' cs1.tail with
      | none => none
      | some (k, r) =>
        let r1 := skipWs r
        if r1.head? = some ':' then
          match parseJson fuel r1.tail with
          | none => none
          | some (v, r2) =>
            let r3 := skipWs r2
            if r3.head? = some ',' then
              match parseMembers fuel r3.tail with
              | some (kvs, rest) => some (.cons (String.mk k) v kvs, rest)
              | none => none
            else if r3.head? = some '\x7d' then some (.cons (String.mk k) v .nil, r3.tail)
            else none
        else none
    else none

end

/-- Strings `json.dumps` prints without any escape sequence: printable
ASCII, no quote, no backslash. -/
def niceStr (s : String) : Bool :=
  s.data.all (fun c => c ≠ '"' && c ≠ '\\' && 32 ≤ c.toNat && c.toNat < 127)

mutual

/-- JSON values in the escape-free sublanguage, with floats canonical. -/
def niceJson : Json → Bool
  | .null => true
  | .jb _ => true
  | .ji _ => true
  | .jf f => f.canonical
  | .js s => niceStr s
  | .jarr xs => niceElems xs
  | .jobj kvs => niceMembers kvs

/-- `niceJson` on each array element. -/
def niceElems : JsonList → Bool
  | .nil => true
  | .cons h t => niceJson h && niceElems t

/-- `niceJson` on each member value plus `niceStr` keys. -/
def niceMembers : JsonMembers → Bool
  | .nil => true
  | .cons k v t => niceStr k && niceJson v && niceMembers t

end

deriving instance DecidableEq for Json
deriving instance DecidableEq for JsonList
deriving instance DecidableEq for JsonMembers

/-- May a JSON number token stop right before `rest`?  True when `rest` is
empty or starts with a character that extends no number literal. -/
def numberStopB (cs : List Char) : Bool :=
  match cs.head? with
  | none => true
  | some c => !(isDig c) && c ≠ '.'

theorem isDig_ne_of {c x : Char} (h : isDig c = true) (hx : isDig x = false) : c ≠ x := by
  intro he
  rw [he, hx] at h
  exact absurd h (by decide)

theorem isDig_not_ws {c : Char} (h : isDig c = true) : isWsChar c = false := by
  cases hw : isWsChar c
  · rfl
  · exfalso
    have hw' : ((c = ' ' ∨ c = '\t') ∨ c = '\n') ∨ c = '\r' := by
      simpa [isWsChar] using hw
    rcases hw' with ((h1 | h1) | h1) | h1 <;> rw [h1] at h <;> exact absurd h (by decide)

theorem parseNegSign_dash (r : List Char) : parseNegSign ('-' :: r) = (true, r) := by
  simp [parseNegSign]

theorem parseNegSign_not_dash {c : Char} (r : List Char) (h : c ≠ '-') :
    parseNegSign (c :: r) = (false, c :: r) := by
  simp [parseNegSign, h]

theorem skipWs_ws_append {ws : List Char} (cs : List Char)
    (h : ∀ c ∈ ws, isWsChar c = true) : skipWs (ws ++ cs) = skipWs cs := by
  induction ws with
  | nil => rfl
  | cons c t ih =>
    simp only [List.cons_append, skipWs, h c (by simp)]
    simp only [if_pos]
    exact ih (fun c hc => h c (by simp [hc]))

theorem skipWs_cons_nonws {c : Char} (t : List Char) (h : isWsChar c = false) :
    skipWs (c :: t) = c :: t := by
  simp [skipWs, h]

theorem startsWithL_self_append (p r : List Char) : startsWithL p (p ++ r) = true := by
  induction p with
  | nil => rfl
  | cons c t ih => simp [startsWithL, ih]

theorem startsWithL_head_ne {p c : Char} (ps cs : List Char) (h : p ≠ c) :
    startsWithL (p :: ps) (c :: cs) = false := by
  simp [startsWithL, h]

theorem niceStr_no_quote {s : String} (h : niceStr s = true) : '"' ∉ s.data := by
  intro hmem
  have := List.all_eq_true.mp h '"' hmem
  exact absurd this (by decide)

theorem string_mk_data (s : String) : String.mk s.data = s := by
  cases s
  rfl

theorem natRender_head (n : Nat) :
    ∃ c t, natRender n = c :: t ∧ isDig c = true := by
  rcases List.exists_cons_of_ne_nil (natRender_ne_nil n) with ⟨c, t, hct⟩
  exact ⟨c, t, hct, natRender_all_isDig n c (by rw [hct]; simp)⟩

theorem floatDigits_head (mant frac10 : Nat) :
    ∃ c t, floatDigits mant frac10 = c :: t ∧ isDig c = true := by
  obtain ⟨intDs, tailDs, hshape, hne, hint, _, _, _⟩ := floatDigits_shape mant frac10
  rcases List.exists_cons_of_ne_nil hne with ⟨c, it, hct⟩
  refine ⟨c, it ++ '.' :: tailDs, ?_, hint c (by rw [hct]; simp)⟩
  rw [hshape, hct]
  simp

/-- Possible first characters of a printed JSON value: never whitespace,
never a closing bracket, never a separator. -/
theorem printJson_head (j : Json) :
    ∃ c t, printJson j = c :: t ∧ isWsChar c = false ∧ c ≠ ']' ∧ c ≠ '\x7d' ∧ c ≠ ',' := by
  cases j with
  | null => exact ⟨'n', _, rfl, by decide, by decide, by decide, by decide⟩
  | jb b => cases b
            · exact ⟨'f', _, rfl, by decide, by decide, by decide, by decide⟩
            · exact ⟨'t', _, rfl, by decide, by decide, by decide, by decide⟩
  | ji n =>
    show ∃ c t, intRender n = c :: t ∧ _
    rw [intRender]
    by_cases hneg : n < 0
    · rw [if_pos hneg]
      exact ⟨'-', _, rfl, by decide, by decide, by decide, by decide⟩
    · rw [if_neg hneg]
      obtain ⟨c, t, hct, hd⟩ := natRender_head n.toNat
      exact ⟨c, t, hct, isDig_not_ws hd, isDig_ne_of hd (by decide),
        isDig_ne_of hd (by decide), isDig_ne_of hd (by decide)⟩
  | jf f =>
    show ∃ c t, floatRender f = c :: t ∧ _
    rw [floatRender]
    cases hneg : f.neg
    · obtain ⟨c, t, hct, hd⟩ := floatDigits_head f.mant f.frac10
      refine ⟨c, t, ?_, isDig_not_ws hd, isDig_ne_of hd (by decide),
        isDig_ne_of hd (by decide), isDig_ne_of hd (by decide)⟩
      rw [hct]; simp
    · exact ⟨'-', floatDigits f.mant f.frac10, by simp [hneg], by decide, by decide,
        by decide, by decide⟩
  | js s => exact ⟨'"', _, rfl, by decide, by decide, by decide, by decide⟩
  | jarr xs => exact ⟨'[', _, rfl, by decide, by decide, by decide, by decide⟩
  | jobj kvs => exact ⟨'\x7b', _, rfl, by decide, by decide, by decide, by decide⟩

theorem numberStop_shape {rest : List Char} (h : numberStopB rest = true) :
    (rest.takeWhile isDig = [] ∧ rest.dropWhile isDig = rest ∧ rest.head? ≠ some '.') := by
  match rest with
  | [] => exact ⟨rfl, rfl, by simp⟩
  | c :: t =>
    have hc : isDig c = false ∧ c ≠ '.' := by
      simpa [numberStopB] using h
    refine ⟨takeWhile_stop _ ?_, dropWhile_stop _ ?_, ?_⟩
    · exact hc.1
    · exact hc.1
    · simpa using hc.2

theorem parseJsonNumber_int (n : Int) (rest : List Char)
    (hstop : numberStopB rest = true) :
    parseJsonNumber (intRender n ++ rest) = some (.ji n, rest) := by
  obtain ⟨htake, hdrop, hdot⟩ := numberStop_shape hstop
  by_cases hneg : n < 0
  · have hr : intRender n ++ rest = '-' :: (natRender n.natAbs ++ rest) := by
      rw [intRender, if_pos hneg]; simp
    rw [hr, parseJsonNumber]
    simp only [parseNegSign_dash,
      takeWhile_append_all rest (natRender_all_isDig n.natAbs),
      dropWhile_append_all rest (natRender_all_isDig n.natAbs), htake, hdrop,
      List.append_nil]
    rw [if_neg (by simp [natRender_ne_nil n.natAbs]), if_neg hdot,
      digitsToNat_natRender]
    have h2 : -((n.natAbs : Int)) = n := by omega
    simp [h2, abs_of_neg hneg]
  · have hsign : parseNegSign (natRender n.toNat ++ rest) =
        (false, natRender n.toNat ++ rest) := by
      obtain ⟨c, t, hct, hd⟩ := natRender_head n.toNat
      rw [hct, List.cons_append, parseNegSign_not_dash _ (isDig_ne_of hd (by decide))]
    rw [intRender, if_neg hneg, parseJsonNumber]
    simp only [hsign, takeWhile_append_all rest (natRender_all_isDig n.toNat),
      dropWhile_append_all rest (natRender_all_isDig n.toNat), htake, hdrop,
      List.append_nil]
    rw [if_neg (by simp [natRender_ne_nil n.toNat]), if_neg hdot,
      digitsToNat_natRender]
    have h3 : ((n.toNat : Int)) = n := by omega
    simp only [Bool.false_eq_true, if_false, h3]

theorem parseJsonNumber_float (f : PyFloat) (rest : List Char)
    (hcf : f.canonical = true) (hstop : numberStopB rest = true) :
    parseJsonNumber (floatRender f ++ rest) = some (.jf f, rest) := by
  obtain ⟨htake, hdrop, _⟩ := numberStop_shape hstop
  obtain ⟨intDs, tailDs, hshape, hne, hint, htail, hval, hlen⟩ :=
    floatDigits_shape f.mant f.frac10
  have hcanon : f.frac10 = 0 ∨ f.mant % 10 ≠ 0 := by
    rw [PyFloat.canonical] at hcf
    rcases Bool.or_eq_true_iff.mp hcf with h | h
    · left; simpa using h
    · right; simpa using h
  have htailne : tailDs ≠ [] := by
    intro hnil
    rw [hnil] at hlen
    by_cases h0 : f.frac10 = 0 <;> simp [h0] at hlen
    omega
  have hstrip : stripz (digitsToNat (intDs ++ tailDs)) tailDs.length = (f.mant, f.frac10) := by
    rw [hval, hlen]
    by_cases h0 : f.frac10 = 0
    · rw [if_pos h0, if_pos h0, h0]
      exact stripz_mul10 f.mant 0 (Or.inl rfl)
    · rw [if_neg h0, if_neg h0]
      exact stripz_canonical f.mant f.frac10 (Or.inr (by omega))
  have hta : List.takeWhile isDig ('.' :: (tailDs ++ rest)) = [] :=
    takeWhile_stop _ (show isDig '.' = false by decide)
  have hda : List.dropWhile isDig ('.' :: (tailDs ++ rest)) = '.' :: (tailDs ++ rest) :=
    dropWhile_stop _ (show isDig '.' = false by decide)
  have htb : List.takeWhile isDig (tailDs ++ rest) = tailDs := by
    rw [takeWhile_append_all rest htail, htake, List.append_nil]
  have hdb : List.dropWhile isDig (tailDs ++ rest) = rest := by
    rw [dropWhile_append_all rest htail, hdrop]
  have hfin : ∀ sgn : Bool, sgn = f.neg →
      parseJsonNumber (intDs ++ ('.' :: (tailDs ++ rest))) =
        some (.jf ⟨sgn, f.mant, f.frac10⟩, rest) →
      parseJsonNumber (intDs ++ ('.' :: (tailDs ++ rest))) = some (.jf f, rest) := by
    intro sgn hsgn h
    rw [h, hsgn]
  cases hneg : f.neg with
  | true =>
    have hr : floatRender f ++ rest = '-' :: (intDs ++ ('.' :: (tailDs ++ rest))) := by
      rw [floatRender, hneg, hshape]; simp
    rw [hr, parseJsonNumber]
    simp only [parseNegSign_dash, takeWhile_append_all _ hint, dropWhile_append_all _ hint,
      hta, hda, List.append_nil]
    rw [if_neg hne, List.head?_cons, if_pos rfl, List.tail_cons, htb, hdb,
      if_neg htailne, hstrip]
    rw [show (f.mant, f.frac10).1 = f.mant from rfl, show (f.mant, f.frac10).2 = f.frac10 from rfl]
    have : (⟨true, f.mant, f.frac10⟩ : PyFloat) = f := by
      cases f; simp_all
    rw [this]
  | false =>
    have hsign : parseNegSign (intDs ++ ('.' :: (tailDs ++ rest))) =
        (false, intDs ++ ('.' :: (tailDs ++ rest))) := by
      rcases List.exists_cons_of_ne_nil hne with ⟨c0, intTl, hcons⟩
      have hc0 : isDig c0 = true := hint c0 (by rw [hcons]; simp)
      rw [hcons, List.cons_append, parseNegSign_not_dash _ (isDig_ne_of hc0 (by decide))]
    have hr : floatRender f ++ rest = intDs ++ ('.' :: (tailDs ++ rest)) := by
      rw [floatRender, hneg, hshape]; simp
    rw [hr, parseJsonNumber]
    simp only [hsign, takeWhile_append_all _ hint, dropWhile_append_all _ hint,
      hta, hda, List.append_nil]
    rw [if_neg hne, List.head?_cons, if_pos rfl, List.tail_cons, htb, hdb,
      if_neg htailne, hstrip]
    rw [show (f.mant, f.frac10).1 = f.mant from rfl, show (f.mant, f.frac10).2 = f.frac10 from rfl]
    have : (⟨false, f.mant, f.frac10⟩ : PyFloat) = f := by
      cases f; simp_all
    rw [this]

theorem jsize_pos (j : Json) : 1 ≤ jsize j := by
  cases j <;> simp [jsize]

theorem jlsize_pos_of_ne {xs : JsonList} (h : xs ≠ .nil) : 1 ≤ jlsize xs := by
  cases xs with
  | nil => exact absurd rfl h
  | cons hd tl => simp [jlsize]

theorem jmsize_pos_of_ne {kvs : JsonMembers} (h : kvs ≠ .nil) : 1 ≤ jmsize kvs := by
  cases kvs with
  | nil => exact absurd rfl h
  | cons k v tl => simp [jmsize]

theorem numberStopB_cons {c : Char} (rest : List Char) (h1 : isDig c = false)
    (h2 : c ≠ '.') : numberStopB (c :: rest) = true := by
  simp [numberStopB, h1, h2]

theorem intRender_head (n : Int) :
    ∃ c t, intRender n = c :: t ∧ (c = '-' ∨ isDig c = true) := by
  rw [intRender]
  by_cases hneg : n < 0
  · exact ⟨'-', _, by rw [if_pos hneg], Or.inl rfl⟩
  · obtain ⟨c, t, hct, hd⟩ := natRender_head n.toNat
    exact ⟨c, t, by rw [if_neg hneg, hct], Or.inr hd⟩

theorem floatRender_head (f : PyFloat) :
    ∃ c t, floatRender f = c :: t ∧ (c = '-' ∨ isDig c = true) := by
  rw [floatRender]
  cases hneg : f.neg
  · obtain ⟨c, t, hct, hd⟩ := floatDigits_head f.mant f.frac10
    exact ⟨c, t, by rw [hct]; simp, Or.inr hd⟩
  · exact ⟨'-', floatDigits f.mant f.frac10, by simp, Or.inl rfl⟩

theorem numHead_props {c : Char} (h : c = '-' ∨ isDig c = true) :
    c ≠ 'n' ∧ c ≠ 't' ∧ c ≠ 'f' ∧ c ≠ '"' ∧ c ≠ '[' ∧ c ≠ '\x7b' ∧ isWsChar c = false := by
  rcases h with rfl | hd
  · exact ⟨by decide, by decide, by decide, by decide, by decide, by decide, by decide⟩
  · exact ⟨isDig_ne_of hd (by decide), isDig_ne_of hd (by decide), isDig_ne_of hd (by decide),
      isDig_ne_of hd (by decide), isDig_ne_of hd (by decide), isDig_ne_of hd (by decide),
      isDig_not_ws hd⟩

theorem printElems_head (h : Json) (t : JsonList) :
    ∃ c tl, printElems (.cons h t) = c :: tl ∧ isWsChar c = false ∧ c ≠ ']' := by
  obtain ⟨c, t', hct, hcw, hcrb, _, _⟩ := printJson_head h
  cases t with
  | nil => exact ⟨c, t', by rw [printElems, hct], hcw, hcrb⟩
  | cons h2 t2 =>
    exact ⟨c, t' ++ ',' :: ' ' :: printElems (.cons h2 t2), by rw [printElems, hct]; simp,
      hcw, hcrb⟩

theorem printMembers_head (k : String) (v : Json) (t : JsonMembers) :
    ∃ tl, printMembers (.cons k v t) = '"' :: tl := by
  cases t with
  | nil => exact ⟨_, rfl⟩
  | cons k2 v2 t2 =>
    exact ⟨k.data ++ '"' :: ':' :: ' ' :: (printJson v ++ ',' :: ' ' ::
      printMembers (.cons k2 v2 t2)), by rw [printMembers]; simp⟩

theorem parseJson_skipWs (fuel : Nat) (ws cs : List Char)
    (hws : ∀ c ∈ ws, isWsChar c = true) :
    parseJson fuel (ws ++ cs) = parseJson fuel cs := by
  cases fuel with
  | zero => rfl
  | succ fuel => rw [parseJson, parseJson, skipWs_ws_append _ hws]

theorem parseElems_skipWs (fuel : Nat) (ws cs : List Char)
    (hws : ∀ c ∈ ws, isWsChar c = true) :
    parseElems fuel (ws ++ cs) = parseElems fuel cs := by
  cases fuel with
  | zero => rfl
  | succ fuel => rw [parseElems, parseElems, parseJson_skipWs fuel ws cs hws]

theorem parseMembers_skipWs (fuel : Nat) (ws cs : List Char)
    (hws : ∀ c ∈ ws, isWsChar c = true) :
    parseMembers fuel (ws ++ cs) = parseMembers fuel cs := by
  cases fuel with
  | zero => rfl
  | succ fuel => rw [parseMembers, parseMembers, skipWs_ws_append _ hws]

theorem wsSingleSpace : ∀ c ∈ [' '], isWsChar c = true := by
  intro c hc
  simp at hc
  rw [hc]
  decide

theorem parseJson_body_num (fuel : Nat) {c : Char} (t rest : List Char)
    (hc : c = '-' ∨ isDig c = true) :
    parseJson (fuel + 1) ((c :: t) ++ rest) = parseJsonNumber ((c :: t) ++ rest) := by
  obtain ⟨h1, h2, h3, h4, h5, h6, h7⟩ := numHead_props hc
  rw [List.cons_append, parseJson]
  simp only [skipWs_cons_nonws (t ++ rest) h7,
    startsWithL_head_ne ['u', 'l', 'l'] (t ++ rest) (Ne.symm h1),
    startsWithL_head_ne ['r', 'u', 'e'] (t ++ rest) (Ne.symm h2),
    startsWithL_head_ne ['a', 'l', 's', 'e'] (t ++ rest) (Ne.symm h3),
    Bool.false_eq_true, if_false, List.head?_cons]
  rw [if_neg (show ¬(some c = some '"') by simp [h4]),
    if_neg (show ¬(some c = some '[') by simp [h5]),
    if_neg (show ¬(some c = some '\x7b') by simp [h6])]

theorem parseJson_quote (fuel : Nat) (X : List Char) :
    parseJson (fuel + 1) ('"' :: X) =
      (match splitFirst '"' X with
       | some (sd, rest) => some (.js (String.mk sd), rest)
       | none => none) := by
  rw [parseJson]
  simp only [skipWs_cons_nonws X (show isWsChar '"' = false by decide),
    startsWithL_head_ne ['u', 'l', 'l'] X (show ('n' : Char) ≠ '"' by decide),
    startsWithL_head_ne ['r', 'u', 'e'] X (show ('t' : Char) ≠ '"' by decide),
    startsWithL_head_ne ['a', 'l', 's', 'e'] X (show ('f' : Char) ≠ '"' by decide),
    Bool.false_eq_true, if_false, List.head?_cons, List.tail_cons]
  rw [if_pos trivial]

theorem parseJson_lbracket (fuel : Nat) (X : List Char) :
    parseJson (fuel + 1) ('[' :: X) =
      (let r := skipWs X
       if r.head? = some ']' then some (.jarr .nil, r.tail)
       else
         match parseElems fuel r with
         | some (xs, rest) => some (.jarr xs, rest)
         | none => none) := by
  rw [parseJson]
  simp only [skipWs_cons_nonws X (show isWsChar '[' = false by decide),
    startsWithL_head_ne ['u', 'l', 'l'] X (show ('n' : Char) ≠ '[' by decide),
    startsWithL_head_ne ['r', 'u', 'e'] X (show ('t' : Char) ≠ '[' by decide),
    startsWithL_head_ne ['a', 'l', 's', 'e'] X (show ('f' : Char) ≠ '[' by decide),
    Bool.false_eq_true, if_false, List.head?_cons, List.tail_cons]
  rw [if_neg (show ¬(some '[' = some '"') by decide), if_pos trivial]

theorem parseJson_lbrace (fuel : Nat) (X : List Char) :
    parseJson (fuel + 1) ('\x7b' :: X) =
      (let r := skipWs X
       if r.head? = some '\x7d' then some (.jobj .nil, r.tail)
       else
         match parseMembers fuel r with
         | some (kvs, rest) => some (.jobj kvs, rest)
         | none => none) := by
  rw [parseJson]
  simp only [skipWs_cons_nonws X (show isWsChar '\x7b' = false by decide),
    startsWithL_head_ne ['u', 'l', 'l'] X (show ('n' : Char) ≠ '\x7b' by decide),
    startsWithL_head_ne ['r', 'u', 'e'] X (show ('t' : Char) ≠ '\x7b' by decide),
    startsWithL_head_ne ['a', 'l', 's', 'e'] X (show ('f' : Char) ≠ '\x7b' by decide),
    Bool.false_eq_true, if_false, List.head?_cons, List.tail_cons]
  rw [if_neg (show ¬(some '\x7b' = some '"') by decide),
    if_neg (show ¬(some '\x7b' = some '[') by decide), if_pos trivial]

/-- Printing then parsing is the identity on nice JSON values: the core of
the serialize/decode round-trip law for JSON-encoded record fields. The
three conjuncts cover values, array elements and object members. -/
theorem json_parse_print (fuel : Nat) :
    (∀ j rest, niceJson j = true → jsize j ≤ fuel → numberStopB rest = true →
      parseJson fuel (printJson j ++ rest) = some (j, rest)) ∧
    (∀ xs rest, xs ≠ JsonList.nil → niceElems xs = true → jlsize xs ≤ fuel →
      parseElems fuel (printElems xs ++ ']' :: rest) = some (xs, rest)) ∧
    (∀ kvs rest, kvs ≠ JsonMembers.nil → niceMembers kvs = true → jmsize kvs ≤ fuel →
      parseMembers fuel (printMembers kvs ++ '\x7d' :: rest) = some (kvs, rest)) := by
  induction fuel with
  | zero =>
    refine ⟨?_, ?_, ?_⟩
    · intro j rest _ hsz _
      have := jsize_pos j
      omega
    · intro xs rest hne _ hsz
      have := jlsize_pos_of_ne hne
      omega
    · intro kvs rest hne _ hsz
      have := jmsize_pos_of_ne hne
      omega
  | succ fuel ih =>
    obtain ⟨IHP, IHQ, IHR⟩ := ih
    refine ⟨?_, ?_, ?_⟩
    · intro j rest hnice hsz hstop
      cases j with
      | null =>
        rfl
      | jb b =>
        cases b <;> rfl
      | ji n =>
        obtain ⟨c, t, hct, hc⟩ := intRender_head n
        show parseJson (fuel + 1) (intRender n ++ rest) = some (.ji n, rest)
        rw [hct, parseJson_body_num fuel t rest hc, ← hct,
          parseJsonNumber_int n rest hstop]
      | jf f =>
        obtain ⟨c, t, hct, hc⟩ := floatRender_head f
        show parseJson (fuel + 1) (floatRender f ++ rest) = some (.jf f, rest)
        rw [hct, parseJson_body_num fuel t rest hc, ← hct,
          parseJsonNumber_float f rest (by simpa [niceJson] using hnice) hstop]
      | js s =>
        show parseJson (fuel + 1) (('"' :: (s.data ++ ['"'])) ++ rest) = some (.js s, rest)
        have hin : ('"' :: (s.data ++ ['"'])) ++ rest = '"' :: (s.data ++ ('"' :: rest)) := by
          simp
        rw [hin, parseJson_quote fuel _,
          splitFirst_append rest (niceStr_no_quote (by simpa [niceJson] using hnice))]
      | jarr xs =>
        show parseJson (fuel + 1) (('[' :: (printElems xs ++ [']'])) ++ rest) =
          some (.jarr xs, rest)
        have hin : ('[' :: (printElems xs ++ [']'])) ++ rest =
            '[' :: (printElems xs ++ (']' :: rest)) := by simp
        rw [hin, parseJson_lbracket fuel _]
        cases xs with
        | nil =>
          simp only [printElems, List.nil_append,
            skipWs_cons_nonws rest (show isWsChar ']' = false by decide),
            List.head?_cons, List.tail_cons]
          rw [if_pos trivial]
        | cons h t =>
          obtain ⟨c, tl, hct, hcw, hcrb⟩ := printElems_head h t
          have hskip : skipWs (printElems (.cons h t) ++ (']' :: rest)) =
              printElems (.cons h t) ++ (']' :: rest) := by
            rw [hct, List.cons_append, skipWs_cons_nonws _ hcw]
          simp only [hskip]
          have hhd : (printElems (.cons h t) ++ (']' :: rest)).head? = some c := by
            rw [hct, List.cons_append, List.head?_cons]
          rw [if_neg (by rw [hhd]; simp [hcrb])]
          rw [IHQ (.cons h t) rest (fun hcon => JsonList.noConfusion hcon)
            (by simpa [niceJson] using hnice)
            (by have := hsz; simp [jsize] at this; omega)]
      | jobj kvs =>
        show parseJson (fuel + 1) (('\x7b' :: (printMembers kvs ++ ['\x7d'])) ++ rest) =
          some (.jobj kvs, rest)
        have hin : ('\x7b' :: (printMembers kvs ++ ['\x7d'])) ++ rest =
            '\x7b' :: (printMembers kvs ++ ('\x7d' :: rest)) := by simp
        rw [hin, parseJson_lbrace fuel _]
        cases kvs with
        | nil =>
          simp only [printMembers, List.nil_append,
            skipWs_cons_nonws rest (show isWsChar '\x7d' = false by decide),
            List.head?_cons, List.tail_cons]
          rw [if_pos trivial]
        | cons k v t =>
          obtain ⟨tl, hct⟩ := printMembers_head k v t
          have hskip : skipWs (printMembers (.cons k v t) ++ ('\x7d' :: rest)) =
              printMembers (.cons k v t) ++ ('\x7d' :: rest) := by
            rw [hct, List.cons_append, skipWs_cons_nonws _ (by decide)]
          simp only [hskip]
          have hhd : (printMembers (.cons k v t) ++ ('\x7d' :: rest)).head? = some '"' := by
            rw [hct, List.cons_append, List.head?_cons]
          rw [if_neg (by rw [hhd]; decide)]
          rw [IHR (.cons k v t) rest (fun hcon => JsonMembers.noConfusion hcon)
            (by simpa [niceJson] using hnice)
            (by have := hsz; simp [jsize] at this; omega)]
    · intro xs rest hne hnice hsz
      cases xs with
      | nil => exact absurd rfl hne
      | cons h t =>
        have hnj : niceJson h = true ∧ niceElems t = true := by
          simpa [niceElems, Bool.and_eq_true] using hnice
        have hszh : jsize h ≤ fuel := by
          have := hsz; simp [jlsize] at this; omega
        rw [parseElems]
        cases t with
        | nil =>
          rw [printElems, IHP h (']' :: rest) hnj.1 hszh
            (numberStopB_cons rest (by decide) (by decide))]
          simp only [skipWs_cons_nonws rest (show isWsChar ']' = false by decide),
            List.head?_cons, List.tail_cons]
          rw [if_neg (show ¬(some ']' = some ',') by decide), if_pos trivial]
        | cons h2 t2 =>
          have hre : printElems (.cons h (.cons h2 t2)) ++ ']' :: rest =
              printJson h ++ (',' :: (' ' :: (printElems (.cons h2 t2) ++ ']' :: rest))) := by
            rw [printElems]
            simp
          rw [hre]
          rw [IHP h _ hnj.1 hszh (numberStopB_cons _ (by decide) (by decide))]
          simp only [skipWs_cons_nonws _ (show isWsChar ',' = false by decide),
            List.head?_cons, List.tail_cons]
          rw [if_pos trivial]
          rw [show (' ' :: (printElems (.cons h2 t2) ++ ']' :: rest)) =
            [' '] ++ (printElems (.cons h2 t2) ++ ']' :: rest) from rfl,
            parseElems_skipWs fuel _ _ wsSingleSpace]
          rw [IHQ (.cons h2 t2) rest (fun hcon => JsonList.noConfusion hcon) hnj.2
            (by simp only [jlsize]; have := hsz; simp only [jlsize] at this; omega)]
    · intro kvs rest hne hnice hsz
      cases kvs with
      | nil => exact absurd rfl hne
      | cons k v t =>
        have hn3 : niceStr k = true ∧ niceJson v = true ∧ niceMembers t = true := by
          simpa [niceMembers, Bool.and_eq_true, and_assoc] using hnice
        have hszv : jsize v ≤ fuel := by
          have := hsz; simp [jmsize] at this; omega
        rw [parseMembers]
        cases t with
        | nil =>
          have hin : printMembers (.cons k v .nil) ++ '\x7d' :: rest =
              '"' :: (k.data ++ ('"' :: (':' :: (' ' :: (printJson v ++ '\x7d' :: rest))))) := by
            rw [printMembers]
            simp
          rw [hin]
          simp only [skipWs_cons_nonws _ (show isWsChar '"' = false by decide),
            List.head?_cons, List.tail_cons]
          rw [if_pos trivial, splitFirst_append _ (niceStr_no_quote hn3.1)]
          simp only [skipWs_cons_nonws _ (show isWsChar ':' = false by decide),
            List.head?_cons, List.tail_cons]
          rw [if_pos trivial]
          rw [show (' ' :: (printJson v ++ '\x7d' :: rest)) =
            [' '] ++ (printJson v ++ '\x7d' :: rest) from rfl,
            parseJson_skipWs fuel _ _ wsSingleSpace]
          rw [IHP v _ hn3.2.1 hszv (numberStopB_cons _ (by decide) (by decide))]
          simp only [skipWs_cons_nonws _ (show isWsChar '\x7d' = false by decide),
            List.head?_cons, List.tail_cons]
          rw [if_neg (show ¬(some '\x7d' = some ',') by decide), if_pos trivial,
            string_mk_data]
        | cons k2 v2 t2 =>
          have hin : printMembers (.cons k v (.cons k2 v2 t2)) ++ '\x7d' :: rest =
              '"' :: (k.data ++ ('"' :: (':' :: (' ' :: (printJson v ++
                (',' :: (' ' :: (printMembers (.cons k2 v2 t2) ++ '\x7d' :: rest)))))))) := by
            rw [printMembers]
            simp
          rw [hin]
          simp only [skipWs_cons_nonws _ (show isWsChar '"' = false by decide),
            List.head?_cons, List.tail_cons]
          rw [if_pos trivial, splitFirst_append _ (niceStr_no_quote hn3.1)]
          simp only [skipWs_cons_nonws _ (show isWsChar ':' = false by decide),
            List.head?_cons, List.tail_cons]
          rw [if_pos trivial]
          rw [show (' ' :: (printJson v ++ (',' :: (' ' ::
              (printMembers (.cons k2 v2 t2) ++ '\x7d' :: rest))))) =
            [' '] ++ (printJson v ++ (',' :: (' ' ::
              (printMembers (.cons k2 v2 t2) ++ '\x7d' :: rest)))) from rfl,
            parseJson_skipWs fuel _ _ wsSingleSpace]
          rw [IHP v _ hn3.2.1 hszv (numberStopB_cons _ (by decide) (by decide))]
          simp only [skipWs_cons_nonws _ (show isWsChar ',' = false by decide),
            List.head?_cons, List.tail_cons]
          rw [if_pos trivial]
          rw [show (' ' :: (printMembers (.cons k2 v2 t2) ++ '\x7d' :: rest)) =
            [' '] ++ (printMembers (.cons k2 v2 t2) ++ '\x7d' :: rest) from rfl,
            parseMembers_skipWs fuel _ _ wsSingleSpace]
          rw [IHR (.cons k2 v2 t2) rest (fun hcon => JsonMembers.noConfusion hcon) hn3.2.2
            (by simp only [jmsize]; have := hsz; simp only [jmsize] at this; omega)]

theorem sizes_le_print (N : Nat) :
    (∀ j, jsize j ≤ N → jsize j ≤ (printJson j).length) ∧
    (∀ xs, jlsize xs ≤ N → jlsize xs ≤ (printElems xs).length + 1) ∧
    (∀ kvs, jmsize kvs ≤ N → jmsize kvs ≤ (printMembers kvs).length + 1) := by
  induction N with
  | zero =>
    refine ⟨?_, ?_, ?_⟩
    · intro j hsz
      have := jsize_pos j
      omega
    · intro xs hsz
      cases xs with
      | nil => simp [jlsize]
      | cons h t => simp [jlsize] at hsz
    · intro kvs hsz
      cases kvs with
      | nil => simp [jmsize]
      | cons k v t => simp [jmsize] at hsz
  | succ N ih =>
    obtain ⟨IHP, IHQ, IHR⟩ := ih
    refine ⟨?_, ?_, ?_⟩
    · intro j hsz
      cases j with
      | null => simp [jsize, printJson]
      | jb b => cases b <;> simp [jsize, printJson]
      | ji n =>
        obtain ⟨c, t, hct, _⟩ := intRender_head n
        simp [jsize, printJson, hct]
      | jf f =>
        obtain ⟨c, t, hct, _⟩ := floatRender_head f
        simp [jsize, printJson, hct]
      | js s => simp [jsize, printJson]
      | jarr xs =>
        have h1 : jlsize xs ≤ N := by
          simp [jsize] at hsz
          omega
        have := IHQ xs h1
        simp only [jsize, printJson, List.length_cons, List.length_append,
          List.length_singleton]
        omega
      | jobj kvs =>
        have h1 : jmsize kvs ≤ N := by
          simp [jsize] at hsz
          omega
        have := IHR kvs h1
        simp only [jsize, printJson, List.length_cons, List.length_append,
          List.length_singleton]
        omega
    · intro xs hsz
      cases xs with
      | nil => simp [jlsize]
      | cons h t =>
        have hszh : jsize h ≤ N := by
          simp [jlsize] at hsz
          omega
        have h1 := IHP h hszh
        cases t with
        | nil =>
          simp only [jlsize, printElems]
          simp [jlsize]
          omega
        | cons h2 t2 =>
          have hszt : jlsize (.cons h2 t2) ≤ N := by
            simp only [jlsize] at hsz ⊢
            omega
          have h2' := IHQ _ hszt
          simp only [jlsize] at h2' ⊢
          simp only [printElems, List.length_append, List.length_cons]
          omega
    · intro kvs hsz
      cases kvs with
      | nil => simp [jmsize]
      | cons k v t =>
        have hszv : jsize v ≤ N := by
          simp [jmsize] at hsz
          omega
        have h1 := IHP v hszv
        cases t with
        | nil =>
          simp only [jmsize, printMembers, List.length_cons, List.length_append]
          simp [jmsize]
          omega
        | cons k2 v2 t2 =>
          have hszt : jmsize (.cons k2 v2 t2) ≤ N := by
            simp only [jmsize] at hsz ⊢
            omega
          have h2' := IHR _ hszt
          simp only [jmsize] at h2' ⊢
          simp only [printMembers, List.length_append, List.length_cons]
          omega

/-- `json.dumps` as applied by the publisher to `dict`/`list` fields. -/
def jsonDumps (j : Json) : String := String.mk (printJson j)

/-- `json.loads` as applied by the consumer to JSON-typed fields; `none`
models `json.JSONDecodeError`. -/
def jsonLoads? (s : String) : Option Json :=
  match parseJson (s.data.length + 1) s.data with
  | some (j, rest) => if skipWs rest = [] then some j else none
  | none => none

theorem jsonLoads_jsonDumps (j : Json) (h : niceJson j = true) :
    jsonLoads? (jsonDumps j) = some j := by
  have hlen : jsize j ≤ (printJson j).length := (sizes_le_print (jsize j)).1 j le_rfl
  have hp := (json_parse_print ((printJson j).length + 1)).1 j [] h (by omega) (by rfl)
  rw [List.append_nil] at hp
  rw [jsonDumps, jsonLoads?]
  simp only [hp]
  rfl

/-- A Python value as it appears in an event's `model_dump()` record. -/
inductive PyVal where
  | pstr (s : String)
  | pfloat (f : PyFloat)
  | pint (n : Int)
  | pbool (b : Bool)
  | pnone
  | pdatetime (d : PyDateTime)
  | pdict (kvs : JsonMembers)
  | plist (xs : JsonList)
deriving DecidableEq

/-- The per-value rule of `EventPublisher._serialize_event`: datetimes are
first converted to their ISO string, then dicts/lists are `json.dumps`-ed
and every other value goes through `str`. -/
def serializeValue : PyVal → String
  | .pdict kvs => jsonDumps (.jobj kvs)
  | .plist xs => jsonDumps (.jarr xs)
  | .pdatetime d => String.mk (isoformat d)
  | .pstr s => s
  | .pfloat f => String.mk (floatRender f)
  | .pint n => String.mk (intRender n)
  | .pbool true => "True"
  | .pbool false => "False"
  | .pnone => "None"

/-- `EventPublisher._serialize_event`: the flat string-keyed record handed
to the broker append call. -/
def serialize_event (record : List (String × PyVal)) : List (String × String) :=
  record.map (fun kv => (kv.1, serializeValue kv.2))

/-- Field names JSON-decoded by `ConsumerGroup._deserialize_event`. -/
def jsonFields : List String := ["metadata", "payload", "headers", "data", "context", "errors"]

/-- Field names parsed as timestamps. -/
def datetimeFields : List String := ["timestamp"]

/-- Field names parsed as floating-point numbers. -/
def floatFields : List String :=
  ["lat", "lng", "speed", "altitude", "accuracy", "distance_from_last",
   "records_processed", "records_created", "records_updated",
   "records_failed", "duration_seconds", "retry_count"]

/-- Field names parsed as integers. -/
def intFields : List String := ["heading", "time_since_last"]

/-- Field names parsed as booleans. -/
def boolFields : List String :=
  ["ignition", "signature_valid", "notify_slack", "notify_email", "recoverable"]

/-- The Python value `json.loads` returns, folded into `PyVal`. -/
def jsonToPyVal : Json → PyVal
  | .null => .pnone
  | .jb b => .pbool b
  | .ji n => .pint n
  | .jf f => .pfloat f
  | .js s => .pstr s
  | .jarr xs => .plist xs
  | .jobj kvs => .pdict kvs

/-- ASCII lowering of one character, as Python's `str.lower` acts on the
values this wire format carries. -/
def lowerChar (c : Char) : Char :=
  if 'A' ≤ c ∧ c ≤ 'Z' then Char.ofNat (c.toNat + 32) else c

/-- Python's `value.lower()` (ASCII fragment). -/
def strLower (s : String) : String := String.mk (s.data.map lowerChar)

/-- The field-name-driven decoding rule of
`ConsumerGroup._deserialize_event`, one key/value pair at a time: JSON
fields fall back to the raw string on decode failure, timestamp / float /
int fields fall back on parse failure, boolean fields compare the lowered
string against `"true"`, and unknown keys pass through unchanged. -/
def deserializeField (key value : String) : PyVal :=
  if key ∈ jsonFields then
    match jsonLoads? value with
    | some j => jsonToPyVal j
    | none => .pstr value
  else if key ∈ datetimeFields then
    match fromisoformat? value.data with
    | some d => .pdatetime d
    | none => .pstr value
  else if key ∈ floatFields then
    match parseFloat? value.data with
    | some f => .pfloat f
    | none => .pstr value
  else if key ∈ intFields then
    match parseInt? value.data with
    | some n => .pint n
    | none => .pstr value
  else if key ∈ boolFields then
    .pbool (strLower value == "true")
  else .pstr value

/-- `ConsumerGroup._deserialize_event` over the whole record. -/
def deserialize_event (data : List (String × String)) : List (String × PyVal) :=
  data.map (fun kv => (kv.1, deserializeField kv.1 kv.2))

/-- A field value matches the type its key's decoding rule expects: a nice
JSON dict/list under a JSON key, a datetime under `timestamp`, a canonical
float under a float key, an int under an int key, a bool under a bool key,
and a plain string elsewhere. -/
def wellTypedField (key : String) (v : PyVal) : Bool :=
  if key ∈ jsonFields then
    match v with
    | .pdict kvs => niceMembers kvs
    | .plist xs => niceElems xs
    | _ => false
  else if key ∈ datetimeFields then
    match v with
    | .pdatetime _ => true
    | _ => false
  else if key ∈ floatFields then
    match v with
    | .pfloat f => f.canonical
    | _ => false
  else if key ∈ intFields then
    match v with
    | .pint _ => true
    | _ => false
  else if key ∈ boolFields then
    match v with
    | .pbool _ => true
    | _ => false
  else
    match v with
    | .pstr _ => true
    | _ => false

theorem deserializeField_serializeValue (key : String) (v : PyVal)
    (h : wellTypedField key v = true) :
    deserializeField key (serializeValue v) = v := by
  cases v with
  | pdict kvs =>
    by_cases h1 : key ∈ jsonFields
    · have hn : niceMembers kvs = true := by
        simpa [wellTypedField, if_pos h1] using h
      simp only [deserializeField, if_pos h1, serializeValue]
      rw [jsonLoads_jsonDumps (.jobj kvs) hn]
      rfl
    · exfalso
      have h2 := h
      simp only [wellTypedField, if_neg h1, ite_self, Bool.false_eq_true] at h2
  | plist xs =>
    by_cases h1 : key ∈ jsonFields
    · have hn : niceElems xs = true := by
        simpa [wellTypedField, if_pos h1] using h
      simp only [deserializeField, if_pos h1, serializeValue]
      rw [jsonLoads_jsonDumps (.jarr xs) hn]
      rfl
    · exfalso
      have h2 := h
      simp only [wellTypedField, if_neg h1, ite_self, Bool.false_eq_true] at h2
  | pdatetime d =>
    by_cases h1 : key ∈ jsonFields
    · exfalso
      have h2 := h
      simp only [wellTypedField, if_pos h1, Bool.false_eq_true] at h2
    · by_cases h2 : key ∈ datetimeFields
      · simp only [deserializeField, if_neg h1, if_pos h2, serializeValue]
        rw [fromiso_isoformat d]
      · exfalso
        have h3 := h
        simp only [wellTypedField, if_neg h1, if_neg h2, ite_self, Bool.false_eq_true] at h3
  | pfloat f =>
    by_cases h1 : key ∈ jsonFields
    · exfalso
      have h2 := h
      simp only [wellTypedField, if_pos h1, Bool.false_eq_true] at h2
    · by_cases h2 : key ∈ datetimeFields
      · exfalso
        have h3 := h
        simp only [wellTypedField, if_neg h1, if_pos h2, Bool.false_eq_true] at h3
      · by_cases h3 : key ∈ floatFields
        · have hc : f.canonical = true := by
            simpa [wellTypedField, if_neg h1, if_neg h2, if_pos h3] using h
          simp only [deserializeField, if_neg h1, if_neg h2, if_pos h3, serializeValue]
          rw [parseFloat_floatRender f hc]
        · exfalso
          have h4 := h
          simp only [wellTypedField, if_neg h1, if_neg h2, if_neg h3, ite_self, Bool.false_eq_true] at h4
  | pint n =>
    by_cases h1 : key ∈ jsonFields
    · exfalso
      have h2 := h
      simp only [wellTypedField, if_pos h1, Bool.false_eq_true] at h2
    · by_cases h2 : key ∈ datetimeFields
      · exfalso
        have h3 := h
        simp only [wellTypedField, if_neg h1, if_pos h2, Bool.false_eq_true] at h3
      · by_cases h3 : key ∈ floatFields
        · exfalso
          have h4 := h
          simp only [wellTypedField, if_neg h1, if_neg h2, if_pos h3, Bool.false_eq_true] at h4
        · by_cases h4 : key ∈ intFields
          · simp only [deserializeField, if_neg h1, if_neg h2, if_neg h3, if_pos h4,
              serializeValue]
            rw [parseInt_intRender n]
          · exfalso
            have h5 := h
            simp only [wellTypedField, if_neg h1, if_neg h2, if_neg h3, if_neg h4,
              ite_self, Bool.false_eq_true] at h5
  | pbool b =>
    by_cases h1 : key ∈ jsonFields
    · exfalso
      have h2 := h
      simp only [wellTypedField, if_pos h1, Bool.false_eq_true] at h2
    · by_cases h2 : key ∈ datetimeFields
      · exfalso
        have h3 := h
        simp only [wellTypedField, if_neg h1, if_pos h2, Bool.false_eq_true] at h3
      · by_cases h3 : key ∈ floatFields
        · exfalso
          have h4 := h
          simp only [wellTypedField, if_neg h1, if_neg h2, if_pos h3, Bool.false_eq_true] at h4
        · by_cases h4 : key ∈ intFields
          · exfalso
            have h5 := h
            simp only [wellTypedField, if_neg h1, if_neg h2, if_neg h3, if_pos h4, Bool.false_eq_true] at h5
          · by_cases h5 : key ∈ boolFields
            · simp only [deserializeField, if_neg h1, if_neg h2, if_neg h3, if_neg h4,
                if_pos h5]
              cases b <;> simp only [serializeValue] <;> decide
            · exfalso
              have h6 := h
              simp only [wellTypedField, if_neg h1, if_neg h2, if_neg h3, if_neg h4,
                if_neg h5, Bool.false_eq_true] at h6
  | pnone =>
    exfalso
    by_cases h1 : key ∈ jsonFields
    · have h2 := h
      simp only [wellTypedField, if_pos h1, Bool.false_eq_true] at h2
    · have h2 := h
      simp only [wellTypedField, if_neg h1, ite_self, Bool.false_eq_true] at h2
  | pstr s =>
    by_cases h1 : key ∈ jsonFields
    · exfalso
      have h2 := h
      simp only [wellTypedField, if_pos h1, Bool.false_eq_true] at h2
    · by_cases h2 : key ∈ datetimeFields
      · exfalso
        have h3 := h
        simp only [wellTypedField, if_neg h1, if_pos h2, Bool.false_eq_true] at h3
      · by_cases h3 : key ∈ floatFields
        · exfalso
          have h4 := h
          simp only [wellTypedField, if_neg h1, if_neg h2, if_pos h3, Bool.false_eq_true] at h4
        · by_cases h4 : key ∈ intFields
          · exfalso
            have h5 := h
            simp only [wellTypedField, if_neg h1, if_neg h2, if_neg h3, if_pos h4, Bool.false_eq_true] at h5
          · by_cases h5 : key ∈ boolFields
            · exfalso
              have h6 := h
              simp only [wellTypedField, if_neg h1, if_neg h2, if_neg h3, if_neg h4,
                if_pos h5, Bool.false_eq_true] at h6
            · simp only [deserializeField, if_neg h1, if_neg h2, if_neg h3, if_neg h4,
                if_neg h5, serializeValue]


theorem deserialize_serialize_event (record : List (String × PyVal))
    (h : ∀ kv ∈ record, wellTypedField kv.1 kv.2 = true) :
    deserialize_event (serialize_event record) = record := by
  induction record with
  | nil => rfl
  | cons kv rest ih =>
    have hh := deserializeField_serializeValue kv.1 kv.2 (h kv (by simp))
    have ht := ih (fun kv2 hkv2 => h kv2 (List.mem_cons_of_mem _ hkv2))
    show (kv.1, deserializeField kv.1 (serializeValue kv.2)) ::
      deserialize_event (serialize_event rest) = kv :: rest
    rw [hh, ht]

/-- `EventType` from `schemas.py`: the closed set of event variants. -/
inductive EventType where
  | webhook_received
  | trip_created
  | trip_status_changed
  | position_updated
  | truck_status_changed
  | alert_triggered
  | sync_completed
  | error_occurred
deriving DecidableEq, Repr

/-- The string value of each `EventType` member. -/
def EventType.value : EventType → String
  | .webhook_received => "webhook.received"
  | .trip_created => "trip.created"
  | .trip_status_changed => "trip.status_changed"
  | .position_updated => "position.updated"
  | .truck_status_changed => "truck.status_changed"
  | .alert_triggered => "alert.triggered"
  | .sync_completed => "sync.completed"
  | .error_occurred => "error.occurred"

/-- `EventType(s)`: the enum constructor, raising `ValueError` (here `none`)
when `s` matches no member value. -/
def eventTypeOf? (s : String) : Option EventType :=
  if s = "webhook.received" then some .webhook_received
  else if s = "trip.created" then some .trip_created
  else if s = "trip.status_changed" then some .trip_status_changed
  else if s = "position.updated" then some .position_updated
  else if s = "truck.status_changed" then some .truck_status_changed
  else if s = "alert.triggered" then some .alert_triggered
  else if s = "sync.completed" then some .sync_completed
  else if s = "error.occurred" then some .error_occurred
  else none

/-- `_get_stream_name`: `f"{self.stream_prefix}:{event_type}"`. -/
def getStreamName (pfx event_type : String) : String := pfx ++ ":" ++ event_type

/-- Model of a typed event for the publisher claims: its type tag, an id
and its serialized record. -/
structure Ev where
  event_type : String
  event_id : String
deriving DecidableEq, Repr

/-- `EventPublisher.publish` with the broker `xadd` call injected: one
serialization, one append attempt (the returned list records the attempted
events in order), and whatever `xadd` returns — an entry id on success, the
very exception re-raised on failure (`logger.error` then bare `raise`,
no retry, no wrapping). -/
def publish (xadd : Ev → Except String String) (e : Ev) :
    List Ev × Except String String :=
  ([e], xadd e)

/-- The insertion-ordered grouping dict built by `publish_batch`
(`events_by_type`): Python dict semantics, keys in first-appearance order,
values in input order. -/
def insertGrouped : List (String × List Ev) → Ev → List (String × List Ev)
  | [], e => [(e.event_type, [e])]
  | (t, es) :: rest, e =>
    if t = e.event_type then (t, es ++ [e]) :: rest
    else (t, es) :: insertGrouped rest e

/-- `events_by_type` after the grouping loop of `publish_batch`. -/
def groupByType (events : List Ev) : List (String × List Ev) :=
  events.foldl insertGrouped []

/-- The order in which `publish_batch` actually publishes: group by group
(first-appearance order of types), within a group in input order. -/
def flattenGroups (gs : List (String × List Ev)) : List Ev :=
  (gs.map Prod.snd).flatten

/-- Sequential publishing of a list of events, stopping at the first
failure; returns the events attempted (in order) and either the collected
entry ids or the propagated exception. -/
def publishSeq (xadd : Ev → Except String String) : List Ev → List Ev × Except String (List String)
  | [] => ([], .ok [])
  | e :: rest =>
    match xadd e with
    | .error err => ([e], .error err)
    | .ok entryId =>
      let r := publishSeq xadd rest
      (e :: r.1, r.2.map (entryId :: ·))

/-- `EventPublisher.publish_batch`: groups events by type, then publishes
each group's events one by one via `publish`, appending entry ids; an
exception from any publish propagates immediately. -/
def publish_batch (xadd : Ev → Except String String) (events : List Ev) :
    List Ev × Except String (List String) :=
  publishSeq xadd (flattenGroups (groupByType events))

/-- The broker error Redis raises when a consumer group already exists. -/
def busygroupMsg : String := "BUSYGROUP Consumer Group name already exists"

/-- Does `sub` occur inside `s`? (Python's `in` on strings.) -/
def startsList : List Char → List Char → Bool
  | [], _ => true
  | _ :: _, [] => false
  | p :: ps, c :: cs => p = c && startsList ps cs

/-- Substring search used to model `"BUSYGROUP" in str(e)`. -/
def containsSub (s sub : String) : Bool :=
  go s.data
where
  go : List Char → Bool
    | [] => startsList sub.data []
    | c :: rest => startsList sub.data (c :: rest) || go rest

/-- The broker's `XGROUP CREATE ... MKSTREAM` on an explicit state: the set
of existing (stream, group) pairs. Raises `BUSYGROUP` when the group
already exists, otherwise records it. -/
def xgroupCreate (st : List (String × String)) (stream group : String) :
    List (String × String) × Except String Unit :=
  if (stream, group) ∈ st then (st, .error busygroupMsg)
  else ((stream, group) :: st, .ok ())

/-- `EventPublisher.create_consumer_group`: attempts the group creation,
treats a `BUSYGROUP` error as success (`return True`), re-raises anything
else. -/
def create_consumer_group (st : List (String × String)) (pfx event_type group : String) :
    List (String × String) × Except String Bool :=
  let stream := getStreamName pfx event_type
  match xgroupCreate st stream group with
  | (st1, .ok ()) => (st1, .ok true)
  | (st1, .error e) =>
    if containsSub e "BUSYGROUP" then (st1, .ok true) else (st1, .error e)

/-- A handler's behavior on a decoded event record: `handler.handle` either
returns or raises. -/
def HandlerFn : Type := List (String × PyVal) → Except String Unit

/-- `ConsumerGroup.register_handler`: appends the handler to the list for
its event type (creating the list on first registration). -/
def register_handler (reg : EventType → List HandlerFn) (et : EventType) (h : HandlerFn) :
    EventType → List HandlerFn :=
  fun et2 => if et2 = et then reg et2 ++ [h] else reg et2

/-- The `event_type` resolved by `_process_message`:
`EventType(event_data.get('event_type'))`, where a missing key or an
unknown value raises `ValueError` (modelled as `none`). -/
def decodedEventType (data : List (String × String)) : Option EventType :=
  match List.lookup "event_type" (deserialize_event data) with
  | some (.pstr s) => eventTypeOf? s
  | _ => none

/-- `ConsumerGroup._process_message`: deserializes, resolves the event
type, and runs every registered handler in registration order, catching
each handler's exception; returns whether processing succeeded (an unknown
event type is the failure case; no registered handlers still succeeds) and
the trace of handler results in invocation order. -/
def processMessage (reg : EventType → List HandlerFn) (data : List (String × String)) :
    Bool × List (Except String Unit) :=
  let event_data := deserialize_event data
  match decodedEventType data with
  | some et => (true, (reg et).map (fun h => h event_data))
  | none => (false, [])

/-- Observable broker actions of the consume loop. -/
inductive Action where
  | ack (stream group msgId : String)
  | sleepSec (n : Nat)
  | logConsumerError (e : String)
  | logCancelled
  | logStopped
deriving DecidableEq, Repr

/-- The message-processing phase of one `consume` iteration: for every
delivered message, process it and acknowledge it exactly when
`_process_message` returned success. -/
def processDelivered (reg : EventType → List HandlerFn) (group : String)
    (batches : List (String × List (String × List (String × String)))) : List Action :=
  (batches.map (fun b =>
    (b.2.map (fun m =>
      if (processMessage reg m.2).1 then [Action.ack b.1 group m.1] else [])).flatten)).flatten

/-- What one blocking `xreadgroup` call can come back with. -/
inductive ReadResult where
  | batch (msgs : List (String × List (String × List (String × String))))
  | empty
  | cancelled
  | brokerError (e : String)
deriving DecidableEq

/-- The `while self.running` read loop of `ConsumerGroup.consume` as a
trace semantics: each element of the input trace is the `running` flag as
sampled at the loop head (cleared by `stop()`) paired with that
iteration's read outcome. Cancellation breaks out of the loop; any other
exception is logged and followed by a fixed `asyncio.sleep(5)` before the
next read; the trailing `logStopped` is the log line after the loop. An
exhausted trace means the loop is still running (no `logStopped`). -/
def consumeLoop (reg : EventType → List HandlerFn) (group : String) :
    List (Bool × ReadResult) → List Action
  | [] => []
  | (running, r) :: rest =>
    if running then
      match r with
      | .cancelled => [Action.logCancelled, Action.logStopped]
      | .brokerError e =>
        Action.logConsumerError e :: Action.sleepSec 5 :: consumeLoop reg group rest
      | .empty => consumeLoop reg group rest
      | .batch msgs => processDelivered reg group msgs ++ consumeLoop reg group rest
    else [Action.logStopped]

/-- A pending-entries listing row (`XPENDING` detail): message id, owning
consumer, idle milliseconds, delivery count. -/
structure PendingEntry where
  message_id : String
  consumer : String
  idle_time_ms : Int
  delivery_count : Nat
deriving DecidableEq, Repr

/-- `ConsumerGroup.get_pending_messages`: lists up to 100 pending entries
via `xpending`; on any broker exception logs and returns the empty list. -/
def get_pending_messages (xpending : Nat → Except String (List PendingEntry)) :
    List PendingEntry :=
  match xpending 100 with
  | .ok entries => entries
  | .error _ => []

/-- `ConsumerGroup.claim_pending_messages`: filters the listed pending
entries to those strictly idler than `min_idle_ms`, returns 0 without
claiming when none qualify, otherwise claims them via `xclaim` and returns
how many came back; on any broker exception logs and returns 0. The first
component records the ids passed to `xclaim`. -/
def claim_pending_messages (xpending : Nat → Except String (List PendingEntry))
    (xclaim : Int → List String → Except String (List String))
    (min_idle_ms : Int) : List String × Nat :=
  let pending := get_pending_messages xpending
  let old_messages := (pending.filter (fun m => m.idle_time_ms > min_idle_ms)).map
    PendingEntry.message_id
  if old_messages.isEmpty then ([], 0)
  else
    match xclaim min_idle_ms old_messages with
    | .ok claimed => (old_messages, claimed.length)
    | .error _ => (old_messages, 0)

/-- The fields of `PositionUpdatedEvent` this verification needs. Pydantic
semantics: `event_type` is an ordinary defaulted field, so the constructor
accepts an override; `none` models "not supplied". -/
structure PositionUpdatedEvent where
  event_id : String
  event_type : EventType
  truck_id : String
  truck_number : String
  lat : PyFloat
  lng : PyFloat
deriving DecidableEq, Repr

/-- Constructing a `PositionUpdatedEvent` the way pydantic does: the
`event_type` field defaults to `EventType.POSITION_UPDATED` when the
caller does not pass one, and takes the caller's value when passed. -/
def mkPositionUpdatedEvent (event_id : String) (event_type? : Option EventType)
    (truck_id truck_number : String) (lat lng : PyFloat) : PositionUpdatedEvent :=
  { event_id := event_id
    event_type := event_type?.getD .position_updated
    truck_id := truck_id
    truck_number := truck_number
    lat := lat
    lng := lng }

theorem publishSeq_all_ok (xadd : Ev → Except String String) (idOf : Ev → String)
    (l : List Ev) (h : ∀ e ∈ l, xadd e = .ok (idOf e)) :
    publishSeq xadd l = (l, .ok (l.map idOf)) := by
  induction l with
  | nil => rfl
  | cons e rest ih =>
    have he := h e (by simp)
    have ht := ih (fun e2 he2 => h e2 (List.mem_cons_of_mem _ he2))
    rw [publishSeq, he, ht]
    rfl

theorem publishSeq_fail (xadd : Ev → Except String String) (pre : List Ev) (bad : Ev)
    (post : List Ev) (err : String) (hpre : ∀ e ∈ pre, ∃ i, xadd e = .ok i)
    (hbad : xadd bad = .error err) :
    publishSeq xadd (pre ++ bad :: post) = (pre ++ [bad], .error err) := by
  induction pre with
  | nil =>
    rw [List.nil_append, publishSeq, hbad]
    rfl
  | cons e rest ih =>
    obtain ⟨i, hi⟩ := hpre e (by simp)
    have ht := ih (fun e2 he2 => hpre e2 (List.mem_cons_of_mem _ he2))
    rw [List.cons_append, publishSeq, hi, ht]
    rfl

theorem flattenGroups_insertGrouped (gs : List (String × List Ev)) (e : Ev) :
    (flattenGroups (insertGrouped gs e)).Perm (flattenGroups gs ++ [e]) := by
  induction gs with
  | nil =>
    simp [insertGrouped, flattenGroups]
  | cons g rest ih =>
    obtain ⟨t, es⟩ := g
    by_cases ht : t = e.event_type
    · simp only [insertGrouped, if_pos ht, flattenGroups, List.map_cons, List.flatten_cons]
      have hperm : ([e] ++ (rest.map Prod.snd).flatten).Perm
          ((rest.map Prod.snd).flatten ++ [e]) := List.perm_append_comm
      have h2 := List.Perm.append_left es hperm
      simpa [List.append_assoc] using h2
    · simp only [insertGrouped, if_neg ht, flattenGroups, List.map_cons, List.flatten_cons]
      have hih : ((insertGrouped rest e).map Prod.snd).flatten.Perm
          ((rest.map Prod.snd).flatten ++ [e]) := by
        simpa [flattenGroups] using ih
      have h2 := List.Perm.append_left es hih
      simpa [List.append_assoc] using h2

theorem flattenGroups_foldl (l : List Ev) (gs : List (String × List Ev)) :
    (flattenGroups (l.foldl insertGrouped gs)).Perm (flattenGroups gs ++ l) := by
  induction l generalizing gs with
  | nil => simp
  | cons e rest ih =>
    rw [List.foldl_cons]
    have h1 := ih (insertGrouped gs e)
    have h2 : (flattenGroups (insertGrouped gs e) ++ rest).Perm
        ((flattenGroups gs ++ [e]) ++ rest) :=
      List.Perm.append_right rest (flattenGroups_insertGrouped gs e)
    have h3 := h1.trans h2
    simpa [List.append_assoc] using h3

theorem flattenGroups_groupByType_perm (events : List Ev) :
    (flattenGroups (groupByType events)).Perm events := by
  have := flattenGroups_foldl events []
  simpa [flattenGroups] using this

theorem foldl_insertGrouped_uniform (l : List Ev) (t0 : String) (es : List Ev)
    (h : ∀ e ∈ l, e.event_type = t0) :
    l.foldl insertGrouped [(t0, es)] = [(t0, es ++ l)] := by
  induction l generalizing es with
  | nil => simp
  | cons e rest ih =>
    have he : e.event_type = t0 := h e (by simp)
    rw [List.foldl_cons]
    have hins : insertGrouped [(t0, es)] e = [(t0, es ++ [e])] := by
      simp [insertGrouped, he]
    rw [hins, ih (es ++ [e]) (fun e2 he2 => h e2 (List.mem_cons_of_mem _ he2))]
    simp

theorem flattenGroups_uniform (events : List Ev) (t0 : String)
    (h : ∀ e ∈ events, e.event_type = t0) :
    flattenGroups (groupByType events) = events := by
  cases events with
  | nil => rfl
  | cons e rest =>
    have he : e.event_type = t0 := h e (by simp)
    rw [groupByType, List.foldl_cons]
    have h1 : insertGrouped [] e = [(t0, [e])] := by
      simp [insertGrouped, he]
    rw [h1, foldl_insertGrouped_uniform rest t0 [e]
      (fun e2 he2 => h e2 (List.mem_cons_of_mem _ he2))]
    simp [flattenGroups]

/-- A fully-populated `PositionUpdatedEvent.model_dump()` record (every
optional field present), used to witness the round-trip law. -/
def samplePositionRecord : List (String × PyVal) :=
  [("event_id", .pstr "evt-1"),
   ("event_type", .pstr "position.updated"),
   ("timestamp", .pdatetime ⟨2024, 1, 2, 3, 4, 5, 123456⟩),
   ("version", .pstr "1.0"),
   ("correlation_id", .pstr "corr-7"),
   ("metadata", .pdict (.cons "a" (.ji 1) .nil)),
   ("truck_id", .pstr "T-1"),
   ("truck_number", .pstr "TRK-9"),
   ("lat", .pfloat ⟨false, 65244, 4⟩),
   ("lng", .pfloat ⟨false, 33792, 4⟩),
   ("speed", .pfloat ⟨false, 455, 1⟩),
   ("heading", .pint 90),
   ("ignition", .pbool true),
   ("altitude", .pfloat ⟨false, 12, 0⟩),
   ("accuracy", .pfloat ⟨false, 5, 0⟩),
   ("trip_id", .pstr "trip-1"),
   ("distance_from_last", .pfloat ⟨false, 1005, 1⟩),
   ("time_since_last", .pint 30)]

deriving instance DecidableEq for Except

/-- A broker append that always succeeds and returns the event's own id. -/
def cexXadd : Ev → Except String String := fun e => .ok e.event_id

/-- A broker append failing exactly on events of type `"b"`. -/
def cexFailXadd : Ev → Except String String :=
  fun e => if e.event_type = "b" then .error "boom" else .ok e.event_id

/-- A handler that always raises. -/
def cexH1 : HandlerFn := fun _ => .error "boom"

/-- A handler that always succeeds. -/
def cexH2 : HandlerFn := fun _ => .ok ()

theorem processDelivered_mem {reg : EventType → List HandlerFn} {g : String}
    {batches : List (String × List (String × List (String × String)))} {a : Action}
    (h : a ∈ processDelivered reg g batches) : ∃ s m, a = Action.ack s g m := by
  simp only [processDelivered, List.mem_flatten, List.mem_map] at h
  obtain ⟨L, ⟨b, hb, hLb⟩, haL⟩ := h
  rw [← hLb] at haL
  simp only [List.mem_flatten, List.mem_map] at haL
  obtain ⟨L2, ⟨m, hm, hL2⟩, haL2⟩ := haL
  rw [← hL2] at haL2
  by_cases hp : (processMessage reg m.2).1 = true
  · rw [if_pos hp] at haL2
    simp at haL2
    exact ⟨b.1, m.1, haL2⟩
  · rw [if_neg hp] at haL2
    simp at haL2

theorem consumeLoop_no_stop (reg : EventType → List HandlerFn) (g : String)
    (inputs : List (Bool × ReadResult))
    (h : ∀ p ∈ inputs, p.1 = true ∧ p.2 ≠ ReadResult.cancelled) :
    Action.logStopped ∉ consumeLoop reg g inputs := by
  induction inputs with
  | nil => simp [consumeLoop]
  | cons p rest ih =>
    obtain ⟨b, r⟩ := p
    have hp := h (b, r) (by simp)
    have hb : b = true := hp.1
    subst hb
    have ihr := ih (fun q hq => h q (List.mem_cons_of_mem _ hq))
    cases r with
    | cancelled => exact absurd rfl hp.2
    | empty =>
      intro hmem
      rw [consumeLoop, if_pos rfl] at hmem
      exact ihr hmem
    | brokerError e =>
      intro hmem
      rw [consumeLoop, if_pos rfl] at hmem
      rcases List.mem_cons.mp hmem with h1 | hmem2
      · exact Action.noConfusion h1
      · rcases List.mem_cons.mp hmem2 with h2 | hmem3
        · exact Action.noConfusion h2
        · exact ihr hmem3
    | batch msgs =>
      intro hmem
      rw [consumeLoop, if_pos rfl] at hmem
      rcases List.mem_append.mp hmem with h1 | h2
      · obtain ⟨s, m, habs⟩ := processDelivered_mem h1
        exact Action.noConfusion habs
      · exact ihr h2

/-- C1 (counterexample): the round-trip claim fails as stated for a variant
field holding the optional-absent value: the publisher serializes `None` as
the string `"None"`, which `float("None")` rejects, so the consumer keeps
the string `"None"` instead of the absent value. -/
theorem C1_roundtrip_counterexample :
    deserialize_event (serialize_event
      [("event_id", .pstr "e1"), ("event_type", .pstr "position.updated"),
       ("speed", PyVal.pnone)]) ≠
      [("event_id", .pstr "e1"), ("event_type", .pstr "position.updated"),
       ("speed", PyVal.pnone)] ∧
    deserialize_event (serialize_event
      [("event_id", .pstr "e1"), ("event_type", .pstr "position.updated"),
       ("speed", PyVal.pnone)]) =
      [("event_id", .pstr "e1"), ("event_type", .pstr "position.updated"),
       ("speed", PyVal.pstr "None")] := by
  constructor
  · decide
  · decide

/-- C1 (amended): serializing an event record with the publisher's rule and
decoding it with the consumer's rule gives back the identical record —
hence identical `event_id`, `event_type` and variant fields — whenever each
field's value matches the type its key's decoding rule expects
(`wellTypedField`); optional-absent values are excluded, as they come back
as the string `"None"`. -/
theorem C1_roundtrip (record : List (String × PyVal))
    (h : ∀ kv ∈ record, wellTypedField kv.1 kv.2 = true) :
    deserialize_event (serialize_event record) = record :=
  deserialize_serialize_event record h

/-- C1 witness: the round trip on a fully-populated position-update
record. -/
theorem C1_roundtrip_witness :
    deserialize_event (serialize_event samplePositionRecord) = samplePositionRecord :=
  C1_roundtrip samplePositionRecord (by decide)

/-- C2 (counterexample): a delivered record whose `event_type` maps to no
known event type is NOT acknowledged: `_process_message` returns `False`
and `consume` therefore skips the `xack` call, leaving the message
pending. -/
theorem C2_unknown_type_counterexample :
    (processMessage (fun _ => []) [("event_type", "bogus.type")]).1 = false ∧
    processDelivered (fun _ => []) "group-1"
      [("wt:events:bogus.type", [("1-1", [("event_type", "bogus.type")])])] = [] := by
  constructor
  · decide
  · decide

/-- C2 (amended): for every delivered record whose `event_type` field does
not map to a known event type, message processing reports failure (after
logging the error with the raw message id) and the acknowledge call is not
issued for that message, so it stays pending. -/
theorem C2_unknown_type_not_acked (reg : EventType → List HandlerFn)
    (data : List (String × String)) (stream group msgId : String)
    (h : decodedEventType data = none) :
    processMessage reg data = (false, []) ∧
    processDelivered reg group [(stream, [(msgId, data)])] = [] := by
  constructor
  · simp [processMessage, h]
  · simp [processDelivered, processMessage, h]

/-- C2 witness: a concrete bogus-typed record is processed as failure with
no acknowledge action. -/
theorem C2_unknown_type_not_acked_witness :
    processMessage (fun _ => []) [("event_type", "bogus.type")] = (false, []) ∧
    processDelivered (fun _ => []) "g" [("s", [("1-1", [("event_type", "bogus.type")])])] = [] :=
  C2_unknown_type_not_acked (fun _ => []) [("event_type", "bogus.type")] "s" "g" "1-1"
    (by decide)

/-- C3 (counterexample): with events of mixed types, `publish_batch`
returns entry ids in grouped order, not input order — input
`[a#1, b#2, a#3]` yields ids `["1", "3", "2"]`. -/
theorem C3_publish_batch_counterexample :
    (publish_batch cexXadd [⟨"a", "1"⟩, ⟨"b", "2"⟩, ⟨"a", "3"⟩]).2 = .ok ["1", "3", "2"] ∧
    (publish_batch cexXadd [⟨"a", "1"⟩, ⟨"b", "2"⟩, ⟨"a", "3"⟩]).2 ≠
      .ok (([⟨"a", "1"⟩, ⟨"b", "2"⟩, ⟨"a", "3"⟩] : List Ev).map Ev.event_id) := by
  constructor
  · decide
  · decide

/-- C3 (amended): `publish_batch` publishes each event exactly once (the
publish order is a permutation of the input), but in grouped order: events
grouped by `event_type` in order of first appearance, input order inside a
group; the returned ids follow that grouped order, which coincides with
input order only when all events share one type. If one publish fails, the
exception propagates and the events after it in the grouped order are not
attempted. -/
theorem C3_publish_batch (xadd : Ev → Except String String) (idOf : Ev → String)
    (events : List Ev) (t0 : String) (pre post : List Ev) (bad : Ev) (err : String) :
    ((∀ e ∈ events, xadd e = .ok (idOf e)) →
      (publish_batch xadd events).2 = .ok ((flattenGroups (groupByType events)).map idOf)
      ∧ (flattenGroups (groupByType events)).Perm events
      ∧ ((∀ e ∈ events, e.event_type = t0) →
          (publish_batch xadd events).2 = .ok (events.map idOf)))
    ∧ (flattenGroups (groupByType events) = pre ++ bad :: post →
        (∀ e ∈ pre, ∃ i, xadd e = .ok i) → xadd bad = .error err →
        (publish_batch xadd events).1 = pre ++ [bad] ∧
        (publish_batch xadd events).2 = .error err) := by
  constructor
  · intro hok
    have hperm := flattenGroups_groupByType_perm events
    have hall : ∀ e ∈ flattenGroups (groupByType events), xadd e = .ok (idOf e) :=
      fun e he => hok e (hperm.mem_iff.mp he)
    have hseq := publishSeq_all_ok xadd idOf _ hall
    refine ⟨by rw [publish_batch, hseq], hperm, ?_⟩
    intro huni
    have huniflat := flattenGroups_uniform events t0 huni
    rw [huniflat] at hseq
    rw [publish_batch, huniflat, hseq]
  · intro hsplit hpre hbad
    rw [publish_batch, hsplit, publishSeq_fail xadd pre bad post err hpre hbad]
    exact ⟨rfl, rfl⟩

/-- C3 witness: a same-type batch keeps input order, and a failing publish
stops the batch after the failing event. -/
theorem C3_publish_batch_witness :
    (publish_batch cexXadd [⟨"a", "1"⟩, ⟨"a", "2"⟩]).2 = .ok ["1", "2"] ∧
    (publish_batch cexFailXadd [⟨"a", "1"⟩, ⟨"b", "2"⟩]).1 = [⟨"a", "1"⟩, ⟨"b", "2"⟩] ∧
    (publish_batch cexFailXadd [⟨"a", "1"⟩, ⟨"b", "2"⟩]).2 = .error "boom" := by
  refine ⟨?_, ?_, ?_⟩
  · exact ((C3_publish_batch cexXadd Ev.event_id [⟨"a", "1"⟩, ⟨"a", "2"⟩] "a"
      [] [] ⟨"a", "1"⟩ "x").1 (by decide)).2.2 (by decide)
  · exact ((C3_publish_batch cexFailXadd Ev.event_id [⟨"a", "1"⟩, ⟨"b", "2"⟩] "a"
      [⟨"a", "1"⟩] [] ⟨"b", "2"⟩ "boom").2 (by decide)
      (by intro e he; simp at he; subst he; exact ⟨"1", rfl⟩) rfl).1
  · exact ((C3_publish_batch cexFailXadd Ev.event_id [⟨"a", "1"⟩, ⟨"b", "2"⟩] "a"
      [⟨"a", "1"⟩] [] ⟨"b", "2"⟩ "boom").2 (by decide)
      (by intro e he; simp at he; subst he; exact ⟨"1", rfl⟩) rfl).2

/-- C4 (confirmed): with two handlers registered for one event type, if the
first raises then the second is still invoked with the decoded event (the
trace lists both results in registration order), processing still reports
success so the message is acknowledged; and in general the handler trace is
exactly the registered list mapped in order, so no handler failure ever
propagates to the read loop. -/
theorem C4_handler_isolation (reg0 : EventType → List HandlerFn) (et : EventType)
    (hd1 hd2 : HandlerFn) (data : List (String × String)) (stream group msgId err : String)
    (hreg : reg0 et = [])
    (hdec : decodedEventType data = some et)
    (hfail : hd1 (deserialize_event data) = .error err) :
    processMessage (register_handler (register_handler reg0 et hd1) et hd2) data =
      (true, [.error err, hd2 (deserialize_event data)])
    ∧ processDelivered (register_handler (register_handler reg0 et hd1) et hd2) group
        [(stream, [(msgId, data)])] = [Action.ack stream group msgId]
    ∧ (∀ reg : EventType → List HandlerFn,
        processMessage reg data = (true, (reg et).map (fun h => h (deserialize_event data)))) := by
  have hgen : ∀ reg : EventType → List HandlerFn,
      processMessage reg data = (true, (reg et).map (fun h => h (deserialize_event data))) := by
    intro reg
    simp [processMessage, decodedEventType] at hdec ⊢
    simp [hdec]
  have hlist : (register_handler (register_handler reg0 et hd1) et hd2) et = [hd1, hd2] := by
    simp [register_handler, hreg]
  refine ⟨?_, ?_, hgen⟩
  · rw [hgen, hlist]
    simp [hfail]
  · simp only [processDelivered, List.map_cons, List.map_nil, hgen, List.flatten]
    simp

/-- C4 witness: concrete handlers, the first raising, on a decoded
position-update record. -/
theorem C4_handler_isolation_witness :
    processMessage
      (register_handler (register_handler (fun _ => []) .position_updated cexH1)
        .position_updated cexH2) [("event_type", "position.updated")] =
      (true, [.error "boom", .ok ()])
    ∧ processDelivered
        (register_handler (register_handler (fun _ => []) .position_updated cexH1)
          .position_updated cexH2) "g"
        [("s", [("1-1", [("event_type", "position.updated")])])] =
      [Action.ack "s" "g" "1-1"] := by
  have h := C4_handler_isolation (fun _ => []) .position_updated cexH1 cexH2
    [("event_type", "position.updated")] "s" "g" "1-1" "boom" rfl (by decide) rfl
  exact ⟨h.1, h.2.1⟩

/-- C5 (confirmed): the decoding table on concrete inputs — `"speed"`
decodes `"12.5"` to the float 12.5, `"ignition"` decodes `"TRUE"` to
`true`, `"metadata"` decodes `'{"a":1}'` to a nested mapping, the unknown
key `"foo"` keeps `"bar"` as a string, and JSON-decode or float-parse
failures keep the raw string. -/
theorem C5_decoding_table :
    deserializeField "speed" "12.5" = .pfloat ⟨false, 125, 1⟩ ∧
    deserializeField "ignition" "TRUE" = .pbool true ∧
    deserializeField "metadata" "\x7b\"a\":1\x7d" = .pdict (.cons "a" (.ji 1) .nil) ∧
    deserializeField "foo" "bar" = .pstr "bar" ∧
    deserializeField "metadata" "not json" = .pstr "not json" ∧
    deserializeField "speed" "abc" = .pstr "abc" := by
  refine ⟨?_, ?_, ?_, ?_, ?_, ?_⟩ <;> decide

/-- C6 (confirmed): when the broker append call fails, `publish` surfaces
that failure to the caller unchanged (the error condition the specification
names `PublishError`: the code logs and re-raises the append exception),
and the attempted-append trace shows exactly one attempt — the publisher
performs no retry before the failure is surfaced. -/
theorem C6_publish_error_propagates (xadd : Ev → Except String String) (e : Ev)
    (err : String) (h : xadd e = .error err) :
    publish xadd e = ([e], .error err) := by
  rw [publish, h]

/-- C6 witness: a concrete failing append. -/
theorem C6_publish_error_propagates_witness :
    publish (fun _ => .error "connection refused") ⟨"position.updated", "e1"⟩ =
      ([⟨"position.updated", "e1"⟩], .error "connection refused") :=
  C6_publish_error_propagates (fun _ => .error "connection refused")
    ⟨"position.updated", "e1"⟩ "connection refused" rfl

/-- C7 (confirmed): `create_consumer_group` always reports success — in
particular when the group already exists (the `BUSYGROUP` error is treated
as success and the state is untouched) — and a second call right after a
first one also reports success and leaves the state unchanged. -/
theorem C7_create_group_idempotent (st : List (String × String))
    (pfx event_type group : String) :
    (create_consumer_group st pfx event_type group).2 = .ok true
    ∧ ((getStreamName pfx event_type, group) ∈ st →
        create_consumer_group st pfx event_type group = (st, .ok true))
    ∧ create_consumer_group (create_consumer_group st pfx event_type group).1
        pfx event_type group =
      ((create_consumer_group st pfx event_type group).1, .ok true) := by
  have hbg : containsSub busygroupMsg "BUSYGROUP" = true := by decide
  by_cases hmem : (getStreamName pfx event_type, group) ∈ st
  · have h1 : create_consumer_group st pfx event_type group = (st, .ok true) := by
      simp [create_consumer_group, xgroupCreate, hmem, hbg]
    refine ⟨by rw [h1], fun _ => h1, ?_⟩
    rw [h1]
    exact h1
  · have h1 : create_consumer_group st pfx event_type group =
        ((getStreamName pfx event_type, group) :: st, .ok true) := by
      simp [create_consumer_group, xgroupCreate, hmem]
    refine ⟨by rw [h1], fun hc => absurd hc hmem, ?_⟩
    rw [h1]
    simp [create_consumer_group, xgroupCreate, hbg]

/-- C7 witness: creating a group that already exists succeeds and leaves
the state unchanged. -/
theorem C7_create_group_idempotent_witness :
    create_consumer_group [("wt:position.updated", "g1")] "wt" "position.updated" "g1" =
      ([("wt:position.updated", "g1")], .ok true) :=
  (C7_create_group_idempotent [("wt:position.updated", "g1")] "wt" "position.updated"
    "g1").2.1 (by decide)

/-- C8 (confirmed): while the running flag is set, a broker-communication
error during the blocking read never terminates the read loop — the
iteration logs the error, sleeps the fixed 5-second backoff and the loop
continues with the rest of the trace; a trace whose iterations all see the
flag set and no cancellation never reaches the stopped state; the loop
exits (reaching its stopped log line) exactly on a cleared flag or on
cancellation. -/
theorem C8_loop_resilient (reg : EventType → List HandlerFn) (group : String)
    (e : String) (r : ReadResult) (rest inputs : List (Bool × ReadResult))
    (h : ∀ p ∈ inputs, p.1 = true ∧ p.2 ≠ ReadResult.cancelled) :
    consumeLoop reg group ((true, .brokerError e) :: rest) =
      Action.logConsumerError e :: Action.sleepSec 5 :: consumeLoop reg group rest
    ∧ Action.logStopped ∉ consumeLoop reg group inputs
    ∧ consumeLoop reg group ((false, r) :: rest) = [Action.logStopped]
    ∧ consumeLoop reg group ((true, .cancelled) :: rest) =
        [Action.logCancelled, Action.logStopped] := by
  refine ⟨rfl, consumeLoop_no_stop reg group inputs h, ?_, rfl⟩
  simp [consumeLoop]

/-- C8 witness: a concrete trace with one broker error between two
successful idle reads, all with the flag set. -/
theorem C8_loop_resilient_witness :
    consumeLoop (fun _ => []) "g" ((true, .brokerError "timeout gone wrong") ::
        [(true, ReadResult.empty)]) =
      Action.logConsumerError "timeout gone wrong" :: Action.sleepSec 5 ::
        consumeLoop (fun _ => []) "g" [(true, ReadResult.empty)]
    ∧ Action.logStopped ∉ consumeLoop (fun _ => [])
        "g" [(true, ReadResult.brokerError "x"), (true, ReadResult.empty)] := by
  have h := C8_loop_resilient (fun _ => []) "g" "timeout gone wrong" ReadResult.empty
    [(true, ReadResult.empty)] [(true, ReadResult.brokerError "x"), (true, ReadResult.empty)]
    (by decide)
  exact ⟨h.1, h.2.1⟩

/-- C9 (counterexample): the variant's `event_type` is an ordinary
defaulted pydantic field, so a construction that passes a different
`event_type` yields an event whose type differs from the variant's tag —
refuting "no construction of a variant value can yield an event whose
event_type differs". -/
theorem C9_event_type_counterexample :
    (mkPositionUpdatedEvent "e1" (some .trip_created) "T-1" "TRK-9"
      ⟨false, 65244, 4⟩ ⟨false, 33792, 4⟩).event_type = .trip_created ∧
    EventType.trip_created ≠ EventType.position_updated := by
  constructor
  · rfl
  · decide

/-- C9 (amended): the variant's `event_type` field defaults to its own tag:
every construction that does not explicitly supply `event_type` yields an
event whose `event_type` equals `EventType.POSITION_UPDATED`; the code does
not prevent an explicit override. -/
theorem C9_event_type_default (event_id truck_id truck_number : String)
    (lat lng : PyFloat) :
    (mkPositionUpdatedEvent event_id none truck_id truck_number lat lng).event_type =
      EventType.position_updated := rfl

/-- C10 (confirmed): pending-message helpers never surface a broker error —
a failing `xpending` makes `get_pending_messages` return `[]` and
`claim_pending_messages` return 0, and a failing `xclaim` makes
`claim_pending_messages` return 0; the ids requested from `xclaim` are
exactly the entries strictly idler than `min_idle_ms` among the at most
100 entries listed; when `xclaim` succeeds on a nonempty request the count
of returned entries is reported. -/
theorem C10_pending_never_propagates (full : List PendingEntry) (err : String)
    (minIdle : Int) (xclaim : Int → List String → Except String (List String))
    (claimed : List String) :
    get_pending_messages (fun _ => .error err) = []
    ∧ (claim_pending_messages (fun _ => .error err) xclaim minIdle).2 = 0
    ∧ (claim_pending_messages (fun c => .ok (full.take c)) (fun _ _ => .error err)
        minIdle).2 = 0
    ∧ (claim_pending_messages (fun c => .ok (full.take c)) xclaim minIdle).1 =
        ((full.take 100).filter (fun m => m.idle_time_ms > minIdle)).map
          PendingEntry.message_id
    ∧ (xclaim minIdle (((full.take 100).filter (fun m => m.idle_time_ms > minIdle)).map
          PendingEntry.message_id) = .ok claimed →
        ((full.take 100).filter (fun m => m.idle_time_ms > minIdle)).map
          PendingEntry.message_id ≠ [] →
        (claim_pending_messages (fun c => .ok (full.take c)) xclaim minIdle).2 =
          claimed.length) := by
  refine ⟨rfl, rfl, ?_, ?_, ?_⟩
  · by_cases hold : (((full.take 100).filter (fun m => m.idle_time_ms > minIdle)).map
        PendingEntry.message_id).isEmpty
    · simp [claim_pending_messages, get_pending_messages, hold]
    · simp [claim_pending_messages, get_pending_messages, hold]
  · by_cases hold : (((full.take 100).filter (fun m => m.idle_time_ms > minIdle)).map
        PendingEntry.message_id).isEmpty
    · simp only [claim_pending_messages, get_pending_messages, hold, if_pos]
      rw [List.isEmpty_iff] at hold
      rw [hold]
    · simp [claim_pending_messages, get_pending_messages, hold]
      split <;> rfl
  · intro hclaim hne
    have hold : (((full.take 100).filter (fun m => m.idle_time_ms > minIdle)).map
        PendingEntry.message_id).isEmpty = false := by
      rw [List.isEmpty_eq_false_iff_exists_mem]
      rcases List.exists_cons_of_ne_nil hne with ⟨x, xs, hx⟩
      exact ⟨x, by rw [hx]; simp⟩
    simp [claim_pending_messages, get_pending_messages, hold, hclaim]

/-- C10 witness: one sufficiently idle entry, a failing broker for the
error conjuncts, and a successful claim of the single filtered id. -/
theorem C10_pending_never_propagates_witness :
    get_pending_messages (fun _ => .error "down") = []
    ∧ (claim_pending_messages (fun c => .ok (([⟨"m1", "c1", 70000, 1⟩] :
        List PendingEntry).take c)) (fun _ ids => .ok ids) 60000).2 = 1 := by
  have h := C10_pending_never_propagates [⟨"m1", "c1", 70000, 1⟩] "down" 60000
    (fun _ ids => .ok ids) ["m1"]
  exact ⟨h.1, by rw [h.2.2.2.2 (by decide) (by decide)]; decide⟩
